import Mathlib

/-!
# Verification of the hospital shift scheduler core (scheduler_logic.py)

This file gives a shallow embedding of the scheduling engine of the
HospitalSchedule repository and proves properties of it.

Modelling conventions:
* Calendar dates are modelled as integers (the proleptic day ordinal used by
  Python's `datetime.date`): `date(1,1,1)` has ordinal 1 and is a Monday, so
  `weekday d = (d - 1) % 7` and the difference `(d1 - d2).days` is `d1 - d2`.
* Python `dict`/`set` values are modelled as association lists / lists; every
  predicate proved here is insertion-order independent, and dict update is
  modelled as remove-key-then-append.
* Python `float` counters are integer valued throughout the source
  (weights 1/2), so they are modelled as `Int`; the target-ratio arithmetic
  (0.5/1.0, averages, fairness scores) is exact in binary floating point for
  every comparison the source performs, and is modelled by the exact rational
  type `Q` below.
* The random jitter only affects which of several legal candidates is picked
  inside one generation attempt; the multi-attempt controller is therefore
  modelled over an explicit list of attempt outcomes (see `generateSchedule`).
-/

namespace HospitalSchedule

/-- Exact rational arithmetic for the float-valued quantities of the source
(`target ratios`, averages, fairness scores). Python's float arithmetic on
these quantities is exact for every comparison the source performs; fractions
are kept unnormalized (comparison is by cross-multiplication, denominators
stay positive in every use) so that all operations reduce in the kernel. -/
structure Q where
  num : Int
  den : Int
deriving DecidableEq, Repr

namespace Q

/-- Embed an integer. -/
def ofInt (n : Int) : Q := ⟨n, 1⟩

/-- The constant 0.5. -/
def half : Q := ⟨1, 2⟩

/-- The constant 1.0. -/
def one : Q := ⟨1, 1⟩

/-- Addition. -/
def add (a b : Q) : Q := ⟨a.num * b.den + b.num * a.den, a.den * b.den⟩

/-- Subtraction. -/
def sub (a b : Q) : Q := ⟨a.num * b.den - b.num * a.den, a.den * b.den⟩

/-- Multiplication. -/
def mul (a b : Q) : Q := ⟨a.num * b.num, a.den * b.den⟩

/-- Division. -/
def div (a b : Q) : Q := ⟨a.num * b.den, a.den * b.num⟩

/-- `a ≤ b` by cross-multiplication (valid for positive denominators). -/
def ble (a b : Q) : Bool := decide (a.num * b.den ≤ b.num * a.den)

/-- `a < b` by cross-multiplication (valid for positive denominators). -/
def blt (a b : Q) : Bool := decide (a.num * b.den < b.num * a.den)

/-- Numeric equality (the `==` of Python floats). -/
def beqv (a b : Q) : Bool := decide (a.num * b.den = b.num * a.den)

end Q

/-- ShiftType enumeration from `scheduler_logic.py`. -/
inductive ShiftType where
  | DAY
  | NIGHT
  | FULL_24H
deriving DecidableEq, Repr

/-- SHIFT_WEIGHTS: Day=1, Night=1, 24h=2. -/
def shiftWeight : ShiftType → Int
  | .DAY => 1
  | .NIGHT => 1
  | .FULL_24H => 2

/-- A shift that occupies the night slot (NIGHT or FULL_24H). -/
def nightKind (st : ShiftType) : Bool :=
  st == ShiftType.NIGHT || st == ShiftType.FULL_24H

/-- A shift that occupies the day slot (DAY or FULL_24H). -/
def dayKind (st : ShiftType) : Bool :=
  st == ShiftType.DAY || st == ShiftType.FULL_24H

/-- Person dataclass: identity, capabilities, fixed constraints and the
mutable per-attempt statistics. `fixed_off_dates` models the Python set by a
duplicate-free list of its elements. -/
structure Person where
  name : String
  can_do_night : Bool := true
  can_do_24h : Bool := true
  fixed_off_dates : List Int := []
  fixed_on_dates : List (Int × ShiftType) := []
  total_shifts : Int := 0
  day_shifts : Int := 0
  night_shifts : Int := 0
  shifts_24h : Int := 0
  weekend_shifts : Int := 0
  holiday_shifts : Int := 0
  weighted_total : Int := 0
  target_shifts : Q := Q.ofInt 0
  last_day_shift : Option Int := none
  last_night_shift : Option Int := none
  assigned_dates : List Int := []
deriving DecidableEq, Repr

/-- The schedule storage: `(person_name, date) -> ShiftType`, modelled as an
association list with dict (unique-key) discipline. -/
abbrev Sched := List ((String × Int) × ShiftType)

/-- Scheduler state: month dates, holiday set, staff roster, schedule and the
derived average used by the target check. `weekends`/`thursdays` are derived
from `dates` on demand (they are defined from `dates` by the constructor). -/
structure State where
  dates : List Int
  holidays : List Int
  staff : List Person
  schedule : Sched
  day_shifts_per_day : Int := 1
  night_shifts_per_day : Int := 1
  avg_shifts_per_person : Q := Q.ofInt 0
deriving DecidableEq, Repr

/-- Python `date.weekday()`: Monday = 0 .. Sunday = 6, on proleptic ordinals. -/
def weekday (d : Int) : Int := (d - 1) % 7

/-- `Scheduler.is_holiday`. -/
def isHoliday (s : State) (d : Int) : Bool := decide (d ∈ s.holidays)

/-- `Scheduler.is_weekend`: membership in the derived weekend set
`{d ∈ dates | d.weekday() ∈ (5, 6)}`. -/
def isWeekend (s : State) (d : Int) : Bool :=
  decide (d ∈ s.dates) && (weekday d == 5 || weekday d == 6)

/-- `Scheduler._get_weekend_pair`. -/
def getWeekendPair (d : Int) : Option Int :=
  if weekday d == 5 then some (d + 1)
  else if weekday d == 6 then some (d - 1)
  else none

/-- `Scheduler._get_thursday_for_weekend`. -/
def getThursdayForWeekend (d : Int) : Option Int :=
  if weekday d == 5 then some (d - 2)
  else if weekday d == 6 then some (d - 3)
  else none

/-- Dictionary lookup `self.schedule.get((name, d))`. -/
def schedLookup (sched : Sched) (k : String × Int) : Option ShiftType :=
  (sched.find? (fun e => e.1 == k)).map (·.2)

/-- Dictionary deletion `del self.schedule[k]` (unique keys, so filtering the
key out is exact). -/
def schedErase (sched : Sched) (k : String × Int) : Sched :=
  sched.filter (fun e => !(e.1 == k))

/-- Dictionary update `self.schedule[k] = v`. -/
def schedInsert (sched : Sched) (k : String × Int) (v : ShiftType) : Sched :=
  schedErase sched k ++ [(k, v)]

/-- `Scheduler._has_thursday_night_this_week`. -/
def hasThursdayNightThisWeek (s : State) (p : Person) (d : Int) : Bool :=
  match getThursdayForWeekend d with
  | some t =>
      decide (t ∈ p.assigned_dates) &&
        (match schedLookup s.schedule (p.name, t) with
         | some sh => nightKind sh
         | none => false)
  | none => false

/-- `Person.is_available_on`. -/
def isAvailableOn (p : Person) (d : Int) : Bool := !decide (d ∈ p.fixed_off_dates)

/-- Models `Person.get_target_ratio` (0.5 for ≥14 fixed-off days, else 1.0).
The `totalDays` argument is taken but unused, exactly as in the source. -/
def targetFraction (p : Person) (_totalDays : Nat) : Q :=
  if 14 ≤ p.fixed_off_dates.length then Q.half else Q.one

/-- The `get_norm_night` closure of `_can_assign_shift` (and of the balancers):
double the raw night count for half-month staff. -/
def normNight (p : Person) (totalDays : Nat) : Int :=
  if Q.beqv (targetFraction p totalDays) Q.half then p.night_shifts * 2 else p.night_shifts

/-- The `get_norm_total` / `get_normalized_shifts` closures. -/
def normTotal (p : Person) (totalDays : Nat) : Int :=
  if Q.beqv (targetFraction p totalDays) Q.half then p.total_shifts * 2 else p.total_shifts

/-- The `get_normalized_day` closure of `_calculate_assignment_score`. -/
def normDay (p : Person) (totalDays : Nat) : Int :=
  if Q.beqv (targetFraction p totalDays) Q.half then p.day_shifts * 2 else p.day_shifts

/-- `min` of a nonempty list of integers (callers guard nonemptiness, as the
Python `min(...)` would raise on an empty sequence). -/
def minInt : List Int → Int
  | [] => 0
  | x :: xs => xs.foldl min x

/-- `max` of a nonempty list of integers (same guard discipline as `minInt`). -/
def maxInt : List Int → Int
  | [] => 0
  | x :: xs => xs.foldl max x

/-- The night-to-night gap loop: some existing NIGHT/FULL_24H shift of `name`
is at distance `0 < gap < minGap` from `d`. -/
def nightNightViol (sched : Sched) (name : String) (d : Int) (minGap : Int) : Bool :=
  sched.any fun e =>
    e.1.1 == name && nightKind e.2 && decide (0 < |d - e.1.2| ∧ |d - e.1.2| < minGap)

/-- The reverse night-to-day loop used when assigning a night shift: an
existing DAY/FULL_24H shift of `name` falls within `minGap` days after `d`. -/
def dayShiftSoonAfterViol (sched : Sched) (name : String) (d : Int) (minGap : Int) : Bool :=
  sched.any fun e =>
    e.1.1 == name && dayKind e.2 && decide (0 < e.1.2 - d ∧ e.1.2 - d < minGap)

/-- The night-to-day loop used when assigning a day shift: `d` falls within
`minGap` days after an existing NIGHT/FULL_24H shift of `name`. -/
def nightToDayViol (sched : Sched) (name : String) (d : Int) (minGap : Int) : Bool :=
  sched.any fun e =>
    e.1.1 == name && nightKind e.2 && decide (0 < d - e.1.2 ∧ d - e.1.2 < minGap)

/-- The day-to-day gap loop: some existing DAY/FULL_24H shift of `name` is at
distance `0 < gap < minGap` from `d`. -/
def dayDayViol (sched : Sched) (name : String) (d : Int) (minGap : Int) : Bool :=
  sched.any fun e =>
    e.1.1 == name && dayKind e.2 && decide (0 < |d - e.1.2| ∧ |d - e.1.2| < minGap)

/-- Weekend pair check: the other day of the linked Saturday+Sunday pair is
already taken by this person. -/
def weekendPairTaken (p : Person) (d : Int) : Bool :=
  match getWeekendPair d with
  | some o => decide (o ∈ p.assigned_dates)
  | none => false

/-- `Scheduler._basic_can_assign`: availability, capability, gap rules
(normal 5-day night gap), and the weekend rules — no fairness blocks. -/
def basicCanAssign (s : State) (p : Person) (d : Int) (stp : ShiftType) : Bool :=
  if !(isAvailableOn p d) then false
  else if decide (d ∈ p.fixed_off_dates) then false
  else if decide (d ∈ p.assigned_dates) then false
  else if stp == ShiftType.NIGHT && !p.can_do_night then false
  else if stp == ShiftType.FULL_24H && !p.can_do_24h then false
  else if nightKind stp && nightNightViol s.schedule p.name d 5 then false
  else if nightKind stp && dayShiftSoonAfterViol s.schedule p.name d 3 then false
  else if dayKind stp && nightToDayViol s.schedule p.name d 3 then false
  else if dayKind stp && dayDayViol s.schedule p.name d 3 then false
  else if isWeekend s d && weekendPairTaken p d then false
  else if isWeekend s d && hasThursdayNightThisWeek s p d then false
  else true

/-- `Scheduler._emergency_can_assign`: identical to `_basic_can_assign` except
that the night-to-night gap threshold is the emergency 3 instead of 5. -/
def emergencyCanAssign (s : State) (p : Person) (d : Int) (stp : ShiftType) : Bool :=
  if !(isAvailableOn p d) then false
  else if decide (d ∈ p.fixed_off_dates) then false
  else if decide (d ∈ p.assigned_dates) then false
  else if stp == ShiftType.NIGHT && !p.can_do_night then false
  else if stp == ShiftType.FULL_24H && !p.can_do_24h then false
  else if nightKind stp && nightNightViol s.schedule p.name d 3 then false
  else if nightKind stp && dayShiftSoonAfterViol s.schedule p.name d 3 then false
  else if dayKind stp && nightToDayViol s.schedule p.name d 3 then false
  else if dayKind stp && dayDayViol s.schedule p.name d 3 then false
  else if isWeekend s d && weekendPairTaken p d then false
  else if isWeekend s d && hasThursdayNightThisWeek s p d then false
  else true

/-- Night-fairness hard block of `_can_assign_shift`: the candidate's
normalized night count exceeds the minimum among night-capable staff while
another night-capable member at/below the minimum could take the shift. -/
def nightFairnessBlocked (s : State) (p : Person) (d : Int) (stp : ShiftType) : Bool :=
  let nightCapable := s.staff.filter (·.can_do_night)
  !nightCapable.isEmpty &&
    (let minNorm := minInt (nightCapable.map (normNight · s.dates.length))
     decide (normNight p s.dates.length > minNorm) &&
       nightCapable.any fun q =>
         q.name != p.name && decide (normNight q s.dates.length ≤ minNorm) &&
           basicCanAssign s q d stp)

/-- Holiday-worker weekend block of `_can_assign_shift`: the candidate already
has holiday shifts and someone with none could take the weekend shift. -/
def holidayWeekendBlocked (s : State) (p : Person) (d : Int) (stp : ShiftType) : Bool :=
  decide (p.holiday_shifts > 0) &&
    s.staff.any fun q =>
      q.name != p.name && q.holiday_shifts == 0 && basicCanAssign s q d stp

/-- First weekend-fairness block of `_can_assign_shift`: raw weekend count
above the raw minimum among non-holiday workers, with a lower-count
alternative available. -/
def weekendFairnessBlocked1 (s : State) (p : Person) (d : Int) (stp : ShiftType) : Bool :=
  let comparable := s.staff.filter (·.holiday_shifts == 0)
  !comparable.isEmpty && p.holiday_shifts == 0 &&
    (let minW := minInt (comparable.map (·.weekend_shifts))
     decide (p.weekend_shifts > minW) &&
       comparable.any fun q =>
         q.name != p.name && decide (q.weekend_shifts ≤ minW) && basicCanAssign s q d stp)

/-- Second weekend-fairness block of `_can_assign_shift`: assigning would push
the raw weekend-count spread beyond 1 while a lower-count alternative exists. -/
def weekendFairnessBlocked2 (s : State) (p : Person) (d : Int) (stp : ShiftType) : Bool :=
  let comparable := s.staff.filter (·.holiday_shifts == 0)
  !comparable.isEmpty && p.holiday_shifts == 0 &&
    (let minW := minInt (comparable.map (·.weekend_shifts))
     decide (p.weekend_shifts ≥ minW + 1) &&
       comparable.any fun q =>
         q.name != p.name && decide (q.weekend_shifts < p.weekend_shifts) &&
           basicCanAssign s q d stp)

/-- Target block of `_can_assign_shift`: the candidate exceeded their
fractional target by ≥1 while someone below target is available. -/
def targetExceededBlocked (s : State) (p : Person) (d : Int) (stp : ShiftType) : Bool :=
  Q.ble (Q.add (Q.mul s.avg_shifts_per_person (targetFraction p s.dates.length)) Q.one)
      (Q.ofInt p.total_shifts) &&
    s.staff.any fun q =>
      Q.blt (Q.ofInt q.total_shifts)
          (Q.mul s.avg_shifts_per_person (targetFraction q s.dates.length)) &&
        q.name != p.name && basicCanAssign s q d stp

/-- `Scheduler._can_assign_shift`: the normal-tier checker, returning
`(can_assign, reason)`. The checks appear in source order; the Python
f-string reasons are modelled by their constant prefixes. -/
def canAssignShift (s : State) (p : Person) (d : Int) (stp : ShiftType) : Bool × String :=
  if !(isAvailableOn p d) then (false, "Not available (unavailable period)")
  else if decide (d ∈ p.fixed_off_dates) then (false, "Fixed off date")
  else if decide (d ∈ p.assigned_dates) then (false, "Already assigned")
  else if stp == ShiftType.NIGHT && !p.can_do_night then (false, "Cannot do night shifts")
  else if stp == ShiftType.FULL_24H && !p.can_do_24h then (false, "Cannot do 24h shifts")
  else if nightKind stp && nightNightViol s.schedule p.name d 5 then
    (false, "Night gap too short")
  else if nightKind stp && dayShiftSoonAfterViol s.schedule p.name d 3 then
    (false, "Existing day shift too close")
  else if dayKind stp && nightToDayViol s.schedule p.name d 3 then
    (false, "Night-to-Day gap too short")
  else if dayKind stp && dayDayViol s.schedule p.name d 3 then
    (false, "Day gap too short")
  else if isWeekend s d && weekendPairTaken p d then
    (false, "Already has shift on other day of this weekend")
  else if isWeekend s d && hasThursdayNightThisWeek s p d then
    (false, "Has Thursday night - weekend off as compensation")
  else if nightKind stp && nightFairnessBlocked s p d stp then
    (false, "Night fairness: others have fewer night shifts")
  else if isWeekend s d && holidayWeekendBlocked s p d stp then
    (false, "Holiday worker should not work weekend")
  else if isWeekend s d && weekendFairnessBlocked1 s p d stp then
    (false, "Weekend fairness: others have fewer weekend shifts")
  else if isWeekend s d && weekendFairnessBlocked2 s p d stp then
    (false, "Weekend fairness: would exceed max diff of 1")
  else if targetExceededBlocked s p d stp then
    (false, "Exceeded target, others need shifts")
  else (true, "OK")

/-- Replace the staff member with `p.name` by `p` (mutation of the person
object held in the `self.staff` dict). -/
def updateStaff (staff : List Person) (p : Person) : List Person :=
  staff.map fun q => if q.name == p.name then p else q

/-- The statistics updates of `Scheduler._assign_shift` on the person. -/
def addShiftStats (s : State) (p : Person) (d : Int) (stp : ShiftType) : Person :=
  let p1 := { p with
    assigned_dates := p.assigned_dates.insert d
    weighted_total := p.weighted_total + shiftWeight stp
    total_shifts := p.total_shifts + 1 }
  let p2 :=
    match stp with
    | ShiftType.DAY => { p1 with day_shifts := p1.day_shifts + 1, last_day_shift := some d }
    | ShiftType.NIGHT => { p1 with night_shifts := p1.night_shifts + 1, last_night_shift := some d }
    | ShiftType.FULL_24H =>
        { p1 with
          shifts_24h := p1.shifts_24h + 1
          day_shifts := p1.day_shifts + 1
          night_shifts := p1.night_shifts + 1
          last_day_shift := some d
          last_night_shift := some d }
  let p3 := if isWeekend s d then { p2 with weekend_shifts := p2.weekend_shifts + 1 } else p2
  if isHoliday s d then { p3 with holiday_shifts := p3.holiday_shifts + 1 } else p3

/-- `Scheduler._assign_shift`: store the schedule entry and update stats. -/
def assignShift (s : State) (p : Person) (d : Int) (stp : ShiftType) : State :=
  { s with
    schedule := schedInsert s.schedule (p.name, d) stp
    staff := updateStaff s.staff (addShiftStats s p d stp) }

/-- The statistic decrements shared by `_perform_swap` (on the from-person)
and the removal step of `reschedule_for_leave`. -/
def removeShiftStats (s : State) (p : Person) (d : Int) (stp : ShiftType) : Person :=
  let p1 := { p with
    assigned_dates := p.assigned_dates.filter (fun x => !(x == d))
    total_shifts := p.total_shifts - 1
    weighted_total := p.weighted_total - shiftWeight stp }
  let p2 :=
    match stp with
    | ShiftType.DAY => { p1 with day_shifts := p1.day_shifts - 1 }
    | ShiftType.NIGHT => { p1 with night_shifts := p1.night_shifts - 1 }
    | ShiftType.FULL_24H =>
        { p1 with
          shifts_24h := p1.shifts_24h - 1
          day_shifts := p1.day_shifts - 1
          night_shifts := p1.night_shifts - 1 }
  let p3 := if isWeekend s d then { p2 with weekend_shifts := p2.weekend_shifts - 1 } else p2
  if isHoliday s d then { p3 with holiday_shifts := p3.holiday_shifts - 1 } else p3

/-- `Scheduler._get_all_night_shifts` (the sort is irrelevant to every use,
which only scans the list, so it is omitted). -/
def getAllNightShifts (s : State) (name : String) : List Int :=
  (s.schedule.filter fun e => e.1.1 == name && nightKind e.2).map (·.1.2)

/-- `Scheduler._get_all_day_shifts` (sort omitted as above). -/
def getAllDayShifts (s : State) (name : String) : List Int :=
  (s.schedule.filter fun e => e.1.1 == name && dayKind e.2).map (·.1.2)

/-- `Scheduler._check_night_gap_with_all_shifts`: True when no violation. -/
def checkNightGapWithAllShifts (s : State) (name : String) (d : Int) (minGap : Int) : Bool :=
  !((getAllNightShifts s name).any fun ad =>
      decide (0 < |d - ad| ∧ |d - ad| < minGap))

/-- `Scheduler._check_day_gap_with_all_shifts`: True when no violation. -/
def checkDayGapWithAllShifts (s : State) (name : String) (d : Int) (minGap : Int) : Bool :=
  !((getAllDayShifts s name).any fun ad =>
      decide (0 < |d - ad| ∧ |d - ad| < minGap))

/-- `Scheduler._check_night_to_day_gap`: no day shift within `minGap` days
after an existing night shift. True when no violation. -/
def checkNightToDayGap (s : State) (name : String) (d : Int) (minGap : Int) : Bool :=
  !((getAllNightShifts s name).any fun nd =>
      decide (0 < d - nd ∧ d - nd < minGap))

/-- `Scheduler._check_reverse_night_to_day_gap`: no existing day shift within
`minGap` days after the candidate night date. True when no violation. -/
def checkReverseNightToDayGap (s : State) (name : String) (d : Int) (minGap : Int) : Bool :=
  !((getAllDayShifts s name).any fun dd =>
      decide (0 < dd - d ∧ dd - d < minGap))

/-- `Scheduler._can_swap_shift`: whether `toP` can take over the shift held by
the from-person on `d` (checks in source order). -/
def canSwapShift (s : State) (_fromP toP : Person) (d : Int) (stp : ShiftType) : Bool :=
  if stp == ShiftType.NIGHT && !toP.can_do_night then false
  else if stp == ShiftType.FULL_24H && !toP.can_do_24h then false
  else if !(isAvailableOn toP d) then false
  else if decide (d ∈ toP.fixed_off_dates) then false
  else if decide (d ∈ toP.assigned_dates) then false
  else if nightKind stp && !(checkNightGapWithAllShifts s toP.name d 5) then false
  else if nightKind stp && !(checkReverseNightToDayGap s toP.name d 3) then false
  else if dayKind stp && !(checkNightToDayGap s toP.name d 3) then false
  else if dayKind stp && !(checkDayGapWithAllShifts s toP.name d 3) then false
  else if isWeekend s d && decide (toP.holiday_shifts > 0) then false
  else if isWeekend s d && weekendPairTaken toP d then false
  else if isWeekend s d && hasThursdayNightThisWeek s toP d then false
  else if weekday d == 3 && nightKind stp &&
      (decide (d + 2 ∈ toP.assigned_dates) || decide (d + 3 ∈ toP.assigned_dates)) then false
  else true

/-- `Scheduler._perform_swap`: remove the shift from `fp` (with stat
decrements), then `_assign_shift` it to `tp`. -/
def performSwap (s : State) (fp tp : Person) (d : Int) (stp : ShiftType) : State :=
  let s1 := { s with
    schedule := schedErase s.schedule (fp.name, d)
    staff := updateStaff s.staff (removeShiftStats s fp d stp) }
  assignShift s1 tp d stp

/-- The `calculate_priority` closure of `_find_replacement` (float valued in
Python but integer valued: lower counts give higher priority). -/
def calculatePriority (s : State) (d : Int) (stp : ShiftType) (p : Person) : Int :=
  let sc := -(p.total_shifts * 100)
  let sc := sc - (if nightKind stp then p.night_shifts * 10 else p.day_shifts * 10)
  if isWeekend s d then sc - p.weekend_shifts * 50 else sc

/-- `candidates.sort(key=score, reverse=True); candidates[0]`: the stable
descending sort keeps the earliest of maximal-score candidates first. -/
def pickBest (l : List (Person × Int)) : Option Person :=
  (l.foldl
      (fun best c =>
        match best with
        | none => some c
        | some b => if c.2 > b.2 then some c else some b)
      none).map (·.1)

/-- The third-tier (FORCE) eligibility filter of `_find_replacement`. -/
def forceEligible (s : State) (q : Person) (d : Int) (stp : ShiftType) : Bool :=
  if stp == ShiftType.NIGHT && !q.can_do_night then false
  else if stp == ShiftType.FULL_24H && !q.can_do_24h then false
  else if decide (d ∈ q.assigned_dates) then false
  else if nightKind stp && !(checkNightGapWithAllShifts s q.name d 3) then false
  else if nightKind stp && !(checkReverseNightToDayGap s q.name d 3) then false
  else if dayKind stp && !(checkNightToDayGap s q.name d 3) then false
  else if dayKind stp && !(checkDayGapWithAllShifts s q.name d 3) then false
  else true

/-- The fourth-tier (ABSOLUTE FORCE) filter of `_find_replacement`: the same
hard floor, with the two day-side checks performed in the opposite order. -/
def absoluteForceEligible (s : State) (q : Person) (d : Int) (stp : ShiftType) : Bool :=
  if stp == ShiftType.NIGHT && !q.can_do_night then false
  else if stp == ShiftType.FULL_24H && !q.can_do_24h then false
  else if decide (d ∈ q.assigned_dates) then false
  else if nightKind stp && !(checkNightGapWithAllShifts s q.name d 3) then false
  else if nightKind stp && !(checkReverseNightToDayGap s q.name d 3) then false
  else if dayKind stp && !(checkDayGapWithAllShifts s q.name d 3) then false
  else if dayKind stp && !(checkNightToDayGap s q.name d 3) then false
  else true

/-- `Scheduler._find_replacement`: four escalating candidate tiers, each
ranked by `calculatePriority` (with growing constant penalties). -/
def findReplacement (s : State) (d : Int) (stp : ShiftType) (excludeName : String) :
    Option Person :=
  let tier1 := (s.staff.filter fun q =>
      q.name != excludeName && (canAssignShift s q d stp).1).map
    fun q => (q, calculatePriority s d stp q)
  match pickBest tier1 with
  | some r => some r
  | none =>
    let tier2 := (s.staff.filter fun q =>
        q.name != excludeName && emergencyCanAssign s q d stp).map
      fun q => (q, calculatePriority s d stp q - 500)
    match pickBest tier2 with
    | some r => some r
    | none =>
      let tier3 := (s.staff.filter fun q =>
          q.name != excludeName && forceEligible s q d stp).map
        fun q => (q, calculatePriority s d stp q - 1000)
      match pickBest tier3 with
      | some r => some r
      | none =>
        let tier4 := (s.staff.filter fun q =>
            q.name != excludeName && absoluteForceEligible s q d stp).map
          fun q => (q, calculatePriority s d stp q - 2000)
        pickBest tier4

/-- A change record returned by `reschedule_for_leave` (the optional
`"warning"` dict key is modelled by the `warning` flag). -/
structure Change where
  date : Int
  shift : ShiftType
  fromName : String
  toName : String
  warning : Bool
deriving DecidableEq, Repr

/-- Insertion sort by date, modelling `shifts_to_reassign.sort(key=date)`. -/
def insertByDate (x : Int × ShiftType) : List (Int × ShiftType) → List (Int × ShiftType)
  | [] => [x]
  | y :: ys => if x.1 ≤ y.1 then x :: y :: ys else y :: insertByDate x ys

/-- Sort a shift list by date (insertion sort; stable, like Python's sort). -/
def sortByDate : List (Int × ShiftType) → List (Int × ShiftType)
  | [] => []
  | x :: xs => insertByDate x (sortByDate xs)

/-- One iteration of the reassignment loop of `reschedule_for_leave`: remove
the shift from the leave person, search for a replacement, and either assign
the replacement or restore the original holder with a warning record. -/
def leaveStep (name : String) (acc : State × List Change) (sh : Int × ShiftType) :
    State × List Change :=
  let st := acc.1
  let chs := acc.2
  let d := sh.1
  let stp := sh.2
  match st.staff.find? (·.name == name) with
  | none => (st, chs)
  | some p =>
    let p' := removeShiftStats st p d stp
    let st1 := { st with
      schedule := schedErase st.schedule (name, d)
      staff := updateStaff st.staff p' }
    match findReplacement st1 d stp name with
    | some r =>
        (assignShift st1 r d stp, chs ++ [⟨d, stp, name, r.name, false⟩])
    | none =>
        (assignShift st1 p' d stp, chs ++ [⟨d, stp, name, name, true⟩])

/-- `Scheduler.reschedule_for_leave`. -/
def rescheduleForLeave (s : State) (name : String) (leaveDates : List Int) :
    State × List Change :=
  match s.staff.find? (·.name == name) with
  | none => (s, [])
  | some _ =>
    let shifts := (s.schedule.filter fun e =>
        e.1.1 == name && decide (e.1.2 ∈ leaveDates)).map fun e => (e.1.2, e.2)
    (sortByDate shifts).foldl (leaveStep name) (s, [])

/-- Number of DAY/FULL_24H entries on date `d` (the `day_count` loop of
`_validate_coverage`). -/
def dayCountOn (sched : Sched) (d : Int) : Nat :=
  (sched.filter fun e => e.1.2 == d && dayKind e.2).length

/-- Number of NIGHT/FULL_24H entries on date `d`. -/
def nightCountOn (sched : Sched) (d : Int) : Nat :=
  (sched.filter fun e => e.1.2 == d && nightKind e.2).length

/-- `Scheduler._validate_coverage`: every non-holiday date has at least one
day occupant and one night occupant (FULL_24H counts for both). -/
def validateCoverage (s : State) : Bool :=
  s.dates.all fun d =>
    isHoliday s d ||
      (decide (1 ≤ dayCountOn s.schedule d) && decide (1 ≤ nightCountOn s.schedule d))

/-- A candidate swap considered by the balancing passes. -/
structure SwapCand where
  fp : Person
  tp : Person
  d : Int
  st : ShiftType

/-- The shared search pattern of the four balancers: scan candidate swaps in
order, and perform the first one passing `_can_swap_shift` (plus the
balancer-specific extra check, evaluated after it, as in the source). -/
def firstSwap (s : State) (extra : SwapCand → Bool) : List SwapCand → Option State
  | [] => none
  | c :: rest =>
      if canSwapShift s c.fp c.tp c.d c.st && extra c then
        some (performSwap s c.fp c.tp c.d c.st)
      else firstSwap s extra rest

/-- `Scheduler._try_balance_weekend_shifts`. -/
def tryBalanceWeekendShifts (s : State) : Bool × State :=
  if s.staff.isEmpty then (false, s)
  else
    let counts := s.staff.map (·.weekend_shifts)
    let maxW := maxInt counts
    let minW := minInt counts
    if maxW - minW ≤ 1 then (false, s)
    else
      let highs := s.staff.filter fun p => p.weekend_shifts == maxW
      let lows := s.staff.filter fun p => p.weekend_shifts == minW
      let combos := highs.map (fun hp =>
        ((s.schedule.filter fun e => e.1.1 == hp.name && isWeekend s e.1.2).map fun e =>
          lows.map fun lp => SwapCand.mk hp lp e.1.2 e.2).flatten)
      match firstSwap s (fun _ => true) combos.flatten with
      | some s' => (true, s')
      | none => (false, s)

/-- `Scheduler._try_balance_night_shifts` (the `continue` on FULL_24H shifts
is the inner filter). -/
def tryBalanceNightShifts (s : State) : Bool × State :=
  let td := s.dates.length
  let nightCapable := s.staff.filter (·.can_do_night)
  if nightCapable.isEmpty then (false, s)
  else
    let counts := nightCapable.map (normNight · td)
    let maxN := maxInt counts
    let minN := minInt counts
    if maxN - minN ≤ 1 then (false, s)
    else
      let highs := nightCapable.filter fun p => normNight p td == maxN
      let lows := nightCapable.filter fun p => normNight p td == minN
      let combos := highs.map (fun hp =>
        (((s.schedule.filter fun e => e.1.1 == hp.name && nightKind e.2).filter fun e =>
            !(e.2 == ShiftType.FULL_24H)).map fun e =>
          lows.map fun lp => SwapCand.mk hp lp e.1.2 e.2).flatten)
      match firstSwap s (fun _ => true) combos.flatten with
      | some s' => (true, s')
      | none => (false, s)

/-- `Scheduler._try_balance_high_total_burden`. On an empty roster the Python
code raises `ValueError` (`max` of an empty sequence); that input is excluded
by the nonempty-roster hypothesis of every optimizer theorem below, and the
model returns no-swap there. -/
def tryBalanceHighTotalBurden (s : State) : Bool × State :=
  if s.staff.isEmpty then (false, s)
  else
    let td := s.dates.length
    let maxTotal := maxInt (s.staff.map (normTotal · td))
    let highs := s.staff.filter fun p => normTotal p td == maxTotal
    let nonHoliday := s.staff.filter (·.holiday_shifts == 0)
    let maxWeekend := maxInt (nonHoliday.map (·.weekend_shifts))
    let nightCapable := s.staff.filter (·.can_do_night)
    let maxNight := maxInt (nightCapable.map (normNight · td))
    let combos := highs.map fun hp =>
      (if !nonHoliday.isEmpty && hp.holiday_shifts == 0 &&
          hp.weekend_shifts == maxWeekend && decide (maxWeekend > 0) then
        ((s.schedule.filter fun e => e.1.1 == hp.name && isWeekend s e.1.2).map fun e =>
          (s.staff.filter fun q =>
            q.name != hp.name && q.holiday_shifts == 0 &&
              decide (q.weekend_shifts < hp.weekend_shifts) &&
              decide (normTotal q td < maxTotal)).map fun q =>
            SwapCand.mk hp q e.1.2 e.2).flatten
      else []) ++
      (if hp.can_do_night && !nightCapable.isEmpty &&
          normNight hp td == maxNight && decide (hp.night_shifts > 0) then
        (((s.schedule.filter fun e => e.1.1 == hp.name && e.2 == ShiftType.NIGHT).filter
            fun e => !(isWeekend s e.1.2)).map fun e =>
          (s.staff.filter fun q =>
            q.name != hp.name && q.can_do_night &&
              decide (normNight q td < normNight hp td) &&
              decide (normTotal q td < maxTotal)).map fun q =>
            SwapCand.mk hp q e.1.2 e.2).flatten
      else [])
    match firstSwap s (fun _ => true) combos.flatten with
    | some s' => (true, s')
    | none => (false, s)

/-- `Scheduler._try_balance_total_shifts` (the improvement check sits after
`_can_swap_shift`, modelled by the `extra` predicate of `firstSwap`). -/
def tryBalanceTotalShifts (s : State) : Bool × State :=
  if s.staff.isEmpty then (false, s)
  else
    let td := s.dates.length
    let totals := s.staff.map (normTotal · td)
    let maxT := maxInt totals
    let minT := minInt totals
    if maxT - minT ≤ 1 then (false, s)
    else
      let highs := s.staff.filter fun p => normTotal p td == maxT
      let lows := s.staff.filter fun p => normTotal p td == minT
      let combos := highs.map (fun hp =>
        ((sortByDate ((s.schedule.filter fun e => e.1.1 == hp.name).map
            fun e => (e.1.2, e.2))).map fun sh =>
          lows.map fun lp => SwapCand.mk hp lp sh.1 sh.2).flatten)
      let extra := fun (c : SwapCand) =>
        let newHigh := normTotal c.fp td -
          (if Q.beqv (targetFraction c.fp td) Q.half then 2 else 1)
        let newLow := normTotal c.tp td +
          (if Q.beqv (targetFraction c.tp td) Q.half then 2 else 1)
        decide (newHigh ≥ newLow - 1)
      match firstSwap s extra combos.flatten with
      | some s' => (true, s')
      | none => (false, s)

/-- One pass of the `while improved` loop of `_optimize_schedule`. -/
def optimizeStep (s : State) : Bool × State :=
  let r1 := tryBalanceWeekendShifts s
  let r2 := tryBalanceNightShifts r1.2
  let r3 := tryBalanceHighTotalBurden r2.2
  let r4 := tryBalanceTotalShifts r3.2
  (r1.1 || r2.1 || r3.1 || r4.1, r4.2)

/-- The bounded `while improved and iteration < max_iterations` loop. -/
def optLoop : Nat → State → State
  | 0, s => s
  | n + 1, s =>
      let r := optimizeStep s
      if r.1 then optLoop n r.2 else r.2

/-- `Scheduler._optimize_schedule` (max_iterations = 50). -/
def optimizeSchedule (s : State) : State := optLoop 50 s

/-- Sum of a list of rationals. -/
def qSum (l : List Q) : Q := l.foldl Q.add (Q.ofInt 0)

/-- `statistics.mean` on rationals. -/
def ratMean (l : List Q) : Q := Q.div (qSum l) (Q.ofInt (l.length : Int))

/-- `statistics.variance` (sample variance, denominator n−1). -/
def sampleVariance (l : List Q) : Q :=
  Q.div (qSum (l.map fun x => Q.mul (Q.sub x (ratMean l)) (Q.sub x (ratMean l))))
    (Q.ofInt ((l.length : Int) - 1))

/-- The `calc_variance` closure (0 for lists of length ≤ 1). -/
def calcVariance (l : List Q) : Q :=
  if l.length ≤ 1 then Q.ofInt 0 else sampleVariance l

/-- The `calc_range` closure (`max - min`, 0 on the empty list). -/
def calcRange (l : List Int) : Int :=
  if l.isEmpty then 0 else maxInt l - minInt l

/-- `Scheduler._calculate_fairness_score` (lower is better). -/
def calcFairnessScore (s : State) : Q :=
  let td := s.dates.length
  let nightCapable := s.staff.filter (·.can_do_night)
  let nonHoliday := s.staff.filter (·.holiday_shifts == 0)
  let weekendList := nonHoliday.map (·.weekend_shifts)
  let nightList := nightCapable.map (normNight · td)
  let dayList := nightCapable.map (normDay · td)
  let totalList := s.staff.map (normTotal · td)
  let wr := calcRange weekendList
  let nr := calcRange nightList
  let dr := calcRange dayList
  let tr := calcRange totalList
  let sc := Q.ofInt (wr * 100 + (if wr > 1 then 50 else 0))
  let sc := Q.add sc (Q.ofInt (nr * 80 + (if nr > 1 then 40 else 0)))
  let sc := Q.add sc (Q.ofInt (dr * 60 + (if dr > 1 then 30 else 0)))
  let sc := Q.add sc (Q.ofInt (tr * 40))
  let sc := Q.add sc
    (if !weekendList.isEmpty then
      Q.mul (calcVariance (weekendList.map Q.ofInt)) (Q.ofInt 10) else Q.ofInt 0)
  let sc := Q.add sc
    (if !nightList.isEmpty then
      Q.mul (calcVariance (nightList.map Q.ofInt)) (Q.ofInt 8) else Q.ofInt 0)
  let sc := Q.add sc
    (if !dayList.isEmpty then
      Q.mul (calcVariance (dayList.map Q.ofInt)) (Q.ofInt 6) else Q.ofInt 0)
  let sc := Q.add sc
    (Q.ofInt (((s.staff.filter fun p =>
        decide (p.holiday_shifts > 0) && decide (p.weekend_shifts > 0)).length : Int) * 200))
  Q.add sc (qSum (s.staff.map fun p =>
      if p.shifts_24h > 1 then Q.ofInt (100 * (p.shifts_24h - 1)) else Q.ofInt 0))

/-- One attempt outcome of `_generate_single_schedule`: the schedule built by
the randomized phased generator and the matching per-person counters. The
month context (dates, holidays, slot counts, averages) is fixed on the
scheduler, so attempts differ only in these two components; the randomness of
the generator is captured by quantifying over the attempt list. -/
abbrev AttemptInput := Sched × List Person

/-- The scheduler state after an attempt regenerated `schedule`/stats. -/
def attState (base : State) (a : AttemptInput) : State :=
  { base with schedule := a.1, staff := a.2 }

/-- One iteration of the best-attempt loop of `generate_schedule`: validate
the attempt, run the post-generation optimizer, score it, and keep the
strictly best snapshot (schedule and per-person stats). -/
def genStep (base : State) (best : Option (Sched × List Person × Q))
    (a : AttemptInput) : Option (Sched × List Person × Q) :=
  let sAtt := attState base a
  if validateCoverage sAtt then
    let sOpt := optimizeSchedule sAtt
    let score := calcFairnessScore sOpt
    match best with
    | none => some (sOpt.schedule, sOpt.staff, score)
    | some b =>
        if Q.blt score b.2.2 then some (sOpt.schedule, sOpt.staff, score) else best
  else best

/-- The best-attempt fold of `generate_schedule`. -/
def genLoop (base : State) (attempts : List AttemptInput) :
    Option (Sched × List Person × Q) :=
  attempts.foldl (genStep base) none

/-- The return value of `generate_schedule`: True exactly when a best
snapshot exists and passes Python's truthiness test `if best_schedule:`
(an empty best schedule dict is falsy and yields False). -/
def generateSchedule (base : State) (attempts : List AttemptInput) : Bool :=
  match genLoop base attempts with
  | some r => !r.1.isEmpty
  | none => false

/-- The state restored from the best snapshot when `generate_schedule`
returns True. -/
def retainedState (base : State) (attempts : List AttemptInput) : Option State :=
  (genLoop base attempts).map fun r => { base with schedule := r.1, staff := r.2.1 }

/-- The keys of the schedule dict. -/
def keysOf (sched : Sched) : List (String × Int) := sched.map (·.1)

/-- Well-formedness of a scheduler state, as maintained by the engine:
unique schedule keys (a dict), unique staff names (a dict), every schedule
entry names a staff member, and each person's `assigned_dates` set agrees
with the schedule. -/
def WF (s : State) : Prop :=
  (keysOf s.schedule).Nodup ∧
  (s.staff.map (·.name)).Nodup ∧
  (∀ e ∈ s.schedule, ∃ p ∈ s.staff, p.name = e.1.1) ∧
  (∀ p ∈ s.staff, ∀ d ∈ p.assigned_dates, (p.name, d) ∈ keysOf s.schedule) ∧
  (∀ e ∈ s.schedule, ∀ p ∈ s.staff, p.name = e.1.1 → e.1.2 ∈ p.assigned_dates)

instance (s : State) : Decidable (WF s) := by
  unfold WF
  infer_instance

/-- One swap of the post-generation optimizer, with the preconditions the
balancers establish before calling `_perform_swap`: both persons are staff
members with distinct names, the from-person actually holds the shift being
moved, and `_can_swap_shift` passed. -/
def SwapStep (s s' : State) : Prop :=
  ∃ fp tp d stp, fp ∈ s.staff ∧ tp ∈ s.staff ∧ fp.name ≠ tp.name ∧
    ((fp.name, d), stp) ∈ s.schedule ∧ canSwapShift s fp tp d stp = true ∧
    s' = performSwap s fp tp d stp

/-- What the optimizer preserves of a state: well-formedness, the month
context, and each date's Day/Night occupancy counts. -/
def Pres (s s' : State) : Prop :=
  WF s' ∧ s'.dates = s.dates ∧ s'.holidays = s.holidays ∧
  ∀ dd, dayCountOn s'.schedule dd = dayCountOn s.schedule dd ∧
    nightCountOn s'.schedule dd = nightCountOn s.schedule dd

/-- Schedules built entirely under the normal constraint tier: starting from
an empty schedule, every assignment passed `_can_assign_shift` against the
state it was added to. -/
inductive NormalBuilt : State → Prop where
  | base (s : State) : s.schedule = [] → NormalBuilt s
  | step (s : State) (p : Person) (d : Int) (stp : ShiftType) :
      NormalBuilt s → p ∈ s.staff → (canAssignShift s p d stp).1 = true →
      NormalBuilt (assignShift s p d stp)

/-- A calendar month as consecutive day ordinals: `monthDates 1 28` is a
28-day month starting on a Monday. -/
def monthDates (first : Int) (n : Nat) : List Int :=
  (List.range n).map fun k : Nat => first + (k : Int)

/-- Modelled from the spec (for comparison only): §3 states that for a
half-month member "all comparisons that reference their counts are normalized
at ×2". This is the first weekend-fairness block with the weekend counts so
normalized; the implementation (`weekendFairnessBlocked1`) compares raw
weekend counts instead. -/
def specNormWeekendBlocked1 (s : State) (p : Person) (d : Int) (stp : ShiftType) : Bool :=
  let comparable := s.staff.filter (·.holiday_shifts == 0)
  let normW := fun (q : Person) =>
    if Q.beqv (targetFraction q s.dates.length) Q.half then q.weekend_shifts * 2
    else q.weekend_shifts
  !comparable.isEmpty && p.holiday_shifts == 0 &&
    (let minW := minInt (comparable.map normW)
     decide (normW p > minW) &&
       comparable.any fun q =>
         q.name != p.name && decide (normW q ≤ minW) && basicCanAssign s q d stp)

/-! ## Concrete states used by the counterexamples and witnesses -/

/-- A holiday worker: fixed-on holiday shift on day 1 (a Monday holiday). -/
def exHolWorker : Person :=
  { name := "H", holiday_shifts := 1, total_shifts := 1, day_shifts := 1,
    weighted_total := 1, assigned_dates := [1], last_day_shift := some 1,
    fixed_on_dates := [(1, ShiftType.DAY)] }

/-- One-week state whose only staff member is the holiday worker. -/
def exHolState : State :=
  { dates := monthDates 1 7, holidays := [1], staff := [exHolWorker],
    schedule := [(("H", 1), ShiftType.DAY)], avg_shifts_per_person := Q.ofInt 2 }

/-- A second staff member with no holiday shifts, free on the weekend. -/
def exFresh : Person := { name := "F" }

/-- The holiday worker together with a free colleague. -/
def exHolState2 : State :=
  { dates := monthDates 1 7, holidays := [1], staff := [exHolWorker, exFresh],
    schedule := [(("H", 1), ShiftType.DAY)], avg_shifts_per_person := Q.ofInt 2 }

/-- A person holding a night shift on day 9. -/
def exNightP : Person :=
  { name := "N", night_shifts := 1, total_shifts := 1, weighted_total := 1,
    assigned_dates := [9], last_night_shift := some 9 }

/-- Week 8–14 with one existing night shift on day 9. -/
def exNightState : State :=
  { dates := monthDates 8 7, holidays := [], staff := [exNightP],
    schedule := [(("N", 9), ShiftType.NIGHT)], avg_shifts_per_person := Q.ofInt 10 }

/-- A person holding a day shift on day 1. -/
def exDayP : Person :=
  { name := "D", day_shifts := 1, total_shifts := 1, weighted_total := 1,
    assigned_dates := [1], last_day_shift := some 1 }

/-- Week 1–7 with one existing day shift on day 1. -/
def exDayState : State :=
  { dates := monthDates 1 7, holidays := [], staff := [exDayP],
    schedule := [(("D", 1), ShiftType.DAY)], avg_shifts_per_person := Q.ofInt 10 }

/-- A person double-booked on both days of a weekend pair with 24h shifts,
and carrying a holiday shift. -/
def exViolP : Person :=
  { name := "V", holiday_shifts := 1, total_shifts := 2, day_shifts := 2,
    night_shifts := 2, shifts_24h := 2, weekend_shifts := 2, weighted_total := 4,
    assigned_dates := [6, 7] }

/-- A two-date state (Saturday 6 and Sunday 7) fully covered by the
double-booked holiday worker. -/
def exViolState : State :=
  { dates := [6, 7], holidays := [], staff := [exViolP],
    schedule := [(("V", 6), ShiftType.FULL_24H), (("V", 7), ShiftType.FULL_24H)] }

/-- The leave person of the rescheduling example: day shifts on 5 and 19. -/
def exLeaveP : Person :=
  { name := "P", total_shifts := 2, day_shifts := 2, weighted_total := 2,
    assigned_dates := [5, 19], last_day_shift := some 19 }

/-- A 28-day month in which `exLeaveP` is the only staff member. -/
def exLeaveState : State :=
  { dates := monthDates 1 28, holidays := [], staff := [exLeaveP],
    schedule := [(("P", 5), ShiftType.DAY), (("P", 19), ShiftType.DAY)],
    avg_shifts_per_person := Q.ofInt 10 }

/-- Half-month member with one weekend day shift (on Saturday day 13). -/
def exHalfW : Person :=
  { name := "A", fixed_off_dates := monthDates 101 14,
    total_shifts := 1, day_shifts := 1, weekend_shifts := 1, weighted_total := 1,
    assigned_dates := [13], last_day_shift := some 13 }

/-- The same member as `exHalfW` but with no fixed-off days (full-month):
identical name and raw counters, different target ratio. -/
def exHalfWAsFull : Person :=
  { name := "A", fixed_off_dates := [],
    total_shifts := 1, day_shifts := 1, weekend_shifts := 1, weighted_total := 1,
    assigned_dates := [13], last_day_shift := some 13 }

/-- Full-month member with one weekend day shift (on Sunday day 14). -/
def exFullW : Person :=
  { name := "B", total_shifts := 1, day_shifts := 1, weekend_shifts := 1,
    weighted_total := 1, assigned_dates := [14], last_day_shift := some 14 }

/-- Two-week state where both members hold one weekend shift each. -/
def exWeekendState : State :=
  { dates := monthDates 1 14, holidays := [],
    staff := [exHalfW, exFullW],
    schedule := [(("A", 13), ShiftType.DAY), (("B", 14), ShiftType.DAY)],
    avg_shifts_per_person := Q.ofInt 10 }

/-- Half-month member with one night shift (day 13). -/
def exHalfN : Person :=
  { name := "A", fixed_off_dates := monthDates 101 14,
    total_shifts := 1, night_shifts := 1, weighted_total := 1,
    assigned_dates := [13], last_night_shift := some 13 }

/-- Full-month member with one night shift (day 9). -/
def exFullN : Person :=
  { name := "B", total_shifts := 1, night_shifts := 1,
    weighted_total := 1, assigned_dates := [9], last_night_shift := some 9 }

/-- Two-week state where both members hold one night shift each. -/
def exNightFairState : State :=
  { dates := monthDates 1 14, holidays := [],
    staff := [exHalfN, exFullN],
    schedule := [(("A", 13), ShiftType.NIGHT), (("B", 9), ShiftType.NIGHT)],
    avg_shifts_per_person := Q.ofInt 10 }

/-- Swap example: the from-person, holding day shifts on 2 and 9. -/
def exSwapFrom : Person :=
  { name := "S1", total_shifts := 2, day_shifts := 2, weighted_total := 2,
    assigned_dates := [2, 9], last_day_shift := some 9 }

/-- Swap example: the unloaded to-person. -/
def exSwapTo : Person := { name := "S2" }

/-- Two-week state in which day 9 can be swapped from S1 to S2. -/
def exSwapState : State :=
  { dates := monthDates 1 14, holidays := [], staff := [exSwapFrom, exSwapTo],
    schedule := [(("S1", 2), ShiftType.DAY), (("S1", 9), ShiftType.DAY)],
    avg_shifts_per_person := Q.ofInt 2 }

/-- A staff member for the generation examples. -/
def exGenP : Person := { name := "Z" }

/-- All-holiday one-day month (the degenerate base of the C2 counterexample). -/
def exGenHolBase : State :=
  { dates := [1], holidays := [1], staff := [exGenP], schedule := [] }

/-- The (validated, empty) attempt outcome on the all-holiday month. -/
def exGenHolAttempt : AttemptInput := ([], [exGenP])

/-- Attempt staff snapshot: Z after taking the single 24h shift of day 1. -/
def exGenPW : Person :=
  { name := "Z", total_shifts := 1, day_shifts := 1, night_shifts := 1,
    shifts_24h := 1, weighted_total := 2, assigned_dates := [1],
    last_day_shift := some 1, last_night_shift := some 1 }

/-- One-day month with no holidays. -/
def exGenBase : State :=
  { dates := [1], holidays := [], staff := [exGenPW], schedule := [] }

/-- A covering attempt outcome for the one-day month. -/
def exGenAttempt : AttemptInput := ([(("Z", 1), ShiftType.FULL_24H)], [exGenPW])

/-- Normal-built witness scaffold: two night shifts 5 days apart. -/
def exBuildP : Person := { name := "E" }

/-- Base state of the normal-built witness. -/
def exBuildState : State :=
  { dates := monthDates 1 7, holidays := [], staff := [exBuildP],
    schedule := [], avg_shifts_per_person := Q.ofInt 10 }

/-- The witness state after assigning E a night shift on day 2. -/
def exBuildState1 : State := assignShift exBuildState exBuildP 2 ShiftType.NIGHT

/-- E's person record inside `exBuildState1`. -/
def exBuildP1 : Person := addShiftStats exBuildState exBuildP 2 ShiftType.NIGHT

/-- The witness state after further assigning E a night shift on day 7. -/
def exBuildState2 : State := assignShift exBuildState1 exBuildP1 7 ShiftType.NIGHT

/-! ## Helper lemmas -/

theorem peel {c : Prop} [Decidable c] {m : String} {rest : Bool × String}
    (h : (if c then ((false : Bool), m) else rest).1 = true) : ¬c ∧ rest.1 = true := by
  by_cases hc : c
  · simp [hc] at h
  · exact ⟨hc, by simpa [hc] using h⟩

theorem peelB {c : Prop} [Decidable c] {rest : Bool}
    (h : (if c then false else rest) = true) : ¬c ∧ rest = true := by
  by_cases hc : c
  · simp [hc] at h
  · exact ⟨hc, by simpa [hc] using h⟩

/-- Splitting the normal-tier checker result into its sixteen conditions. -/
theorem canAssignShift_true_decomp (s : State) (p : Person) (d : Int) (stp : ShiftType)
    (h : (canAssignShift s p d stp).1 = true) :
    isAvailableOn p d = true ∧
    decide (d ∈ p.fixed_off_dates) = false ∧
    decide (d ∈ p.assigned_dates) = false ∧
    (stp == ShiftType.NIGHT && !p.can_do_night) = false ∧
    (stp == ShiftType.FULL_24H && !p.can_do_24h) = false ∧
    (nightKind stp && nightNightViol s.schedule p.name d 5) = false ∧
    (nightKind stp && dayShiftSoonAfterViol s.schedule p.name d 3) = false ∧
    (dayKind stp && nightToDayViol s.schedule p.name d 3) = false ∧
    (dayKind stp && dayDayViol s.schedule p.name d 3) = false ∧
    (isWeekend s d && weekendPairTaken p d) = false ∧
    (isWeekend s d && hasThursdayNightThisWeek s p d) = false ∧
    (nightKind stp && nightFairnessBlocked s p d stp) = false ∧
    (isWeekend s d && holidayWeekendBlocked s p d stp) = false ∧
    (isWeekend s d && weekendFairnessBlocked1 s p d stp) = false ∧
    (isWeekend s d && weekendFairnessBlocked2 s p d stp) = false ∧
    targetExceededBlocked s p d stp = false := by
  unfold canAssignShift at h
  obtain ⟨n1, h⟩ := peel h
  obtain ⟨n2, h⟩ := peel h
  obtain ⟨n3, h⟩ := peel h
  obtain ⟨n4, h⟩ := peel h
  obtain ⟨n5, h⟩ := peel h
  obtain ⟨n6, h⟩ := peel h
  obtain ⟨n7, h⟩ := peel h
  obtain ⟨n8, h⟩ := peel h
  obtain ⟨n9, h⟩ := peel h
  obtain ⟨n10, h⟩ := peel h
  obtain ⟨n11, h⟩ := peel h
  obtain ⟨n12, h⟩ := peel h
  obtain ⟨n13, h⟩ := peel h
  obtain ⟨n14, h⟩ := peel h
  obtain ⟨n15, h⟩ := peel h
  obtain ⟨n16, h⟩ := peel h
  exact ⟨by simpa using n1, by simpa using n2, by simpa using n3, by simpa using n4,
    by simpa using n5, by simpa using n6, by simpa using n7, by simpa using n8,
    by simpa using n9, by simpa using n10, by simpa using n11, by simpa using n12,
    by simpa using n13, by simpa using n14, by simpa using n15, by simpa using n16⟩

/-- Splitting `_basic_can_assign` into its eleven conditions. -/
theorem basicCanAssign_true_decomp (s : State) (p : Person) (d : Int) (stp : ShiftType)
    (h : basicCanAssign s p d stp = true) :
    isAvailableOn p d = true ∧
    decide (d ∈ p.fixed_off_dates) = false ∧
    decide (d ∈ p.assigned_dates) = false ∧
    (stp == ShiftType.NIGHT && !p.can_do_night) = false ∧
    (stp == ShiftType.FULL_24H && !p.can_do_24h) = false ∧
    (nightKind stp && nightNightViol s.schedule p.name d 5) = false ∧
    (nightKind stp && dayShiftSoonAfterViol s.schedule p.name d 3) = false ∧
    (dayKind stp && nightToDayViol s.schedule p.name d 3) = false ∧
    (dayKind stp && dayDayViol s.schedule p.name d 3) = false ∧
    (isWeekend s d && weekendPairTaken p d) = false ∧
    (isWeekend s d && hasThursdayNightThisWeek s p d) = false := by
  unfold basicCanAssign at h
  obtain ⟨n1, h⟩ := peelB h
  obtain ⟨n2, h⟩ := peelB h
  obtain ⟨n3, h⟩ := peelB h
  obtain ⟨n4, h⟩ := peelB h
  obtain ⟨n5, h⟩ := peelB h
  obtain ⟨n6, h⟩ := peelB h
  obtain ⟨n7, h⟩ := peelB h
  obtain ⟨n8, h⟩ := peelB h
  obtain ⟨n9, h⟩ := peelB h
  obtain ⟨n10, h⟩ := peelB h
  obtain ⟨n11, h⟩ := peelB h
  exact ⟨by simpa using n1, by simpa using n2, by simpa using n3, by simpa using n4,
    by simpa using n5, by simpa using n6, by simpa using n7, by simpa using n8,
    by simpa using n9, by simpa using n10, by simpa using n11⟩

/-- Splitting `_emergency_can_assign` into its eleven conditions. -/
theorem emergencyCanAssign_true_decomp (s : State) (p : Person) (d : Int) (stp : ShiftType)
    (h : emergencyCanAssign s p d stp = true) :
    isAvailableOn p d = true ∧
    decide (d ∈ p.fixed_off_dates) = false ∧
    decide (d ∈ p.assigned_dates) = false ∧
    (stp == ShiftType.NIGHT && !p.can_do_night) = false ∧
    (stp == ShiftType.FULL_24H && !p.can_do_24h) = false ∧
    (nightKind stp && nightNightViol s.schedule p.name d 3) = false ∧
    (nightKind stp && dayShiftSoonAfterViol s.schedule p.name d 3) = false ∧
    (dayKind stp && nightToDayViol s.schedule p.name d 3) = false ∧
    (dayKind stp && dayDayViol s.schedule p.name d 3) = false ∧
    (isWeekend s d && weekendPairTaken p d) = false ∧
    (isWeekend s d && hasThursdayNightThisWeek s p d) = false := by
  unfold emergencyCanAssign at h
  obtain ⟨n1, h⟩ := peelB h
  obtain ⟨n2, h⟩ := peelB h
  obtain ⟨n3, h⟩ := peelB h
  obtain ⟨n4, h⟩ := peelB h
  obtain ⟨n5, h⟩ := peelB h
  obtain ⟨n6, h⟩ := peelB h
  obtain ⟨n7, h⟩ := peelB h
  obtain ⟨n8, h⟩ := peelB h
  obtain ⟨n9, h⟩ := peelB h
  obtain ⟨n10, h⟩ := peelB h
  obtain ⟨n11, h⟩ := peelB h
  exact ⟨by simpa using n1, by simpa using n2, by simpa using n3, by simpa using n4,
    by simpa using n5, by simpa using n6, by simpa using n7, by simpa using n8,
    by simpa using n9, by simpa using n10, by simpa using n11⟩

/-- Rebuilding `_basic_can_assign = true` from its conditions. -/
theorem basicCanAssign_intro (s : State) (p : Person) (d : Int) (stp : ShiftType)
    (h1 : isAvailableOn p d = true)
    (h2 : decide (d ∈ p.fixed_off_dates) = false)
    (h3 : decide (d ∈ p.assigned_dates) = false)
    (h4 : (stp == ShiftType.NIGHT && !p.can_do_night) = false)
    (h5 : (stp == ShiftType.FULL_24H && !p.can_do_24h) = false)
    (h6 : (nightKind stp && nightNightViol s.schedule p.name d 5) = false)
    (h7 : (nightKind stp && dayShiftSoonAfterViol s.schedule p.name d 3) = false)
    (h8 : (dayKind stp && nightToDayViol s.schedule p.name d 3) = false)
    (h9 : (dayKind stp && dayDayViol s.schedule p.name d 3) = false)
    (h10 : (isWeekend s d && weekendPairTaken p d) = false)
    (h11 : (isWeekend s d && hasThursdayNightThisWeek s p d) = false) :
    basicCanAssign s p d stp = true := by
  unfold basicCanAssign
  simp [h1, h2, h3, h4, h5, h6, h7, h8, h9, h10, h11]

/-- Rebuilding `_emergency_can_assign = true` from its conditions. -/
theorem emergencyCanAssign_intro (s : State) (p : Person) (d : Int) (stp : ShiftType)
    (h1 : isAvailableOn p d = true)
    (h2 : decide (d ∈ p.fixed_off_dates) = false)
    (h3 : decide (d ∈ p.assigned_dates) = false)
    (h4 : (stp == ShiftType.NIGHT && !p.can_do_night) = false)
    (h5 : (stp == ShiftType.FULL_24H && !p.can_do_24h) = false)
    (h6 : (nightKind stp && nightNightViol s.schedule p.name d 3) = false)
    (h7 : (nightKind stp && dayShiftSoonAfterViol s.schedule p.name d 3) = false)
    (h8 : (dayKind stp && nightToDayViol s.schedule p.name d 3) = false)
    (h9 : (dayKind stp && dayDayViol s.schedule p.name d 3) = false)
    (h10 : (isWeekend s d && weekendPairTaken p d) = false)
    (h11 : (isWeekend s d && hasThursdayNightThisWeek s p d) = false) :
    emergencyCanAssign s p d stp = true := by
  unfold emergencyCanAssign
  simp [h1, h2, h3, h4, h5, h6, h7, h8, h9, h10, h11]

/-- Monotonicity of the night-gap violation scan in the gap threshold. -/
theorem nightNightViol_mono {sched : Sched} {name : String} {d g g' : Int}
    (hg : g ≤ g') (h : nightNightViol sched name d g = true) :
    nightNightViol sched name d g' = true := by
  unfold nightNightViol at h ⊢
  rw [List.any_eq_true] at h ⊢
  obtain ⟨e, he, hp⟩ := h
  refine ⟨e, he, ?_⟩
  simp only [Bool.and_eq_true, decide_eq_true_eq] at hp ⊢
  exact ⟨hp.1, hp.2.1, by omega⟩

/-- Constructing a night-gap violation from a violating schedule entry. -/
theorem nightNightViol_of_mem {sched : Sched} {name : String} {d g : Int}
    {e : (String × Int) × ShiftType} (he : e ∈ sched) (hn : e.1.1 = name)
    (hk : nightKind e.2 = true) (h1 : 0 < |d - e.1.2|) (h2 : |d - e.1.2| < g) :
    nightNightViol sched name d g = true := by
  unfold nightNightViol
  rw [List.any_eq_true]
  exact ⟨e, he, by simp [hn, hk, h1, h2]⟩

/-- Constructing a day-gap violation from a violating schedule entry. -/
theorem dayDayViol_of_mem {sched : Sched} {name : String} {d g : Int}
    {e : (String × Int) × ShiftType} (he : e ∈ sched) (hn : e.1.1 = name)
    (hk : dayKind e.2 = true) (h1 : 0 < |d - e.1.2|) (h2 : |d - e.1.2| < g) :
    dayDayViol sched name d g = true := by
  unfold dayDayViol
  rw [List.any_eq_true]
  exact ⟨e, he, by simp [hn, hk, h1, h2]⟩

/-- Membership in the schedule after `_assign_shift`. -/
theorem mem_schedInsert {sched : Sched} {k : String × Int} {v : ShiftType}
    {e : (String × Int) × ShiftType} (h : e ∈ schedInsert sched k v) :
    e ∈ sched ∨ e = (k, v) := by
  unfold schedInsert schedErase at h
  rcases List.mem_append.mp h with h' | h'
  · exact Or.inl (List.mem_of_mem_filter h')
  · exact Or.inr (List.mem_singleton.mp h')

/-! ## C3 — normal-tier night-to-night gap invariant -/

/-- C3: in a schedule built entirely under the normal constraint tier, any
two Night/Full24h assignments of the same person on distinct dates are at
least 5 calendar days apart (the checker compares the candidate against every
existing Night/Full24h assignment of that person, not only the most recent). -/
theorem normal_schedule_night_gap (s : State) (hs : NormalBuilt s) :
    ∀ (n : String) (d1 d2 : Int) (st1 st2 : ShiftType),
      ((n, d1), st1) ∈ s.schedule → ((n, d2), st2) ∈ s.schedule →
      nightKind st1 = true → nightKind st2 = true → d1 ≠ d2 →
      5 ≤ |d1 - d2| := by
  induction hs with
  | base s hbase =>
      intro n d1 d2 st1 st2 h1 h2 _ _ _
      rw [hbase] at h1
      simp at h1
  | step s p d stp hb hmem hcan ih =>
      intro n d1 d2 st1 st2 h1 h2 hk1 hk2 hne
      have hins1 := mem_schedInsert (show ((n, d1), st1) ∈ schedInsert s.schedule (p.name, d) stp
        from h1)
      have hins2 := mem_schedInsert (show ((n, d2), st2) ∈ schedInsert s.schedule (p.name, d) stp
        from h2)
      have hviol := (canAssignShift_true_decomp s p d stp hcan).2.2.2.2.2.1
      rcases hins1 with hold1 | hnew1
      · rcases hins2 with hold2 | hnew2
        · exact ih n d1 d2 st1 st2 hold1 hold2 hk1 hk2 hne
        · obtain ⟨⟨hn2, hd2⟩, hst2⟩ : (n = p.name ∧ d2 = d) ∧ st2 = stp := by
            simpa [Prod.ext_iff] using hnew2
          rw [hd2]
          have hkstp : nightKind stp = true := hst2 ▸ hk2
          rw [hkstp, Bool.true_and] at hviol
          by_contra hlt
          push_neg at hlt
          have hne' : d1 ≠ d := fun hc => hne (by rw [hd2, hc])
          have habs : 0 < |d - d1| := by
            rw [abs_pos, sub_ne_zero]
            exact fun hc => hne' (by omega)
          have hv := nightNightViol_of_mem hold1 hn2 hk1 habs
            (by rw [abs_sub_comm]; exact hlt)
          simp [hv] at hviol
      · rcases hins2 with hold2 | hnew2
        · obtain ⟨⟨hn1, hd1⟩, hst1⟩ : (n = p.name ∧ d1 = d) ∧ st1 = stp := by
            simpa [Prod.ext_iff] using hnew1
          rw [hd1]
          have hkstp : nightKind stp = true := hst1 ▸ hk1
          rw [hkstp, Bool.true_and] at hviol
          by_contra hlt
          push_neg at hlt
          have hne' : d ≠ d2 := fun hc => hne (by rw [hd1, hc])
          have habs : 0 < |d - d2| := by
            rw [abs_pos, sub_ne_zero]
            exact fun hc => hne' (by omega)
          have hv := nightNightViol_of_mem hold2 hn1 hk2 habs hlt
          simp [hv] at hviol
        · obtain ⟨⟨hn1, hd1⟩, hst1⟩ : (n = p.name ∧ d1 = d) ∧ st1 = stp := by
            simpa [Prod.ext_iff] using hnew1
          obtain ⟨⟨hn2, hd2⟩, hst2⟩ : (n = p.name ∧ d2 = d) ∧ st2 = stp := by
            simpa [Prod.ext_iff] using hnew2
          exact absurd (hd1.trans hd2.symm) hne

/-- C3 witness: a concrete two-step normal-built schedule (nights on days 2
and 7) satisfying the hypotheses of `normal_schedule_night_gap`. -/
theorem normal_schedule_night_gap_witness : 5 ≤ |(2 : Int) - 7| :=
  normal_schedule_night_gap exBuildState2
    (NormalBuilt.step exBuildState1 exBuildP1 7 ShiftType.NIGHT
      (NormalBuilt.step exBuildState exBuildP 2 ShiftType.NIGHT
        (NormalBuilt.base exBuildState rfl) (by decide) (by decide))
      (by decide) (by decide))
    "E" 2 7 ShiftType.NIGHT ShiftType.NIGHT (by decide) (by decide) rfl rfl (by decide)

/-! ## Force-tier and replacement-search lemmas -/

theorem forceEligible_true_decomp (s : State) (q : Person) (d : Int) (stp : ShiftType)
    (h : forceEligible s q d stp = true) :
    (stp == ShiftType.NIGHT && !q.can_do_night) = false ∧
    (stp == ShiftType.FULL_24H && !q.can_do_24h) = false ∧
    decide (d ∈ q.assigned_dates) = false ∧
    (nightKind stp && !(checkNightGapWithAllShifts s q.name d 3)) = false ∧
    (nightKind stp && !(checkReverseNightToDayGap s q.name d 3)) = false ∧
    (dayKind stp && !(checkNightToDayGap s q.name d 3)) = false ∧
    (dayKind stp && !(checkDayGapWithAllShifts s q.name d 3)) = false := by
  unfold forceEligible at h
  obtain ⟨n1, h⟩ := peelB h
  obtain ⟨n2, h⟩ := peelB h
  obtain ⟨n3, h⟩ := peelB h
  obtain ⟨n4, h⟩ := peelB h
  obtain ⟨n5, h⟩ := peelB h
  obtain ⟨n6, h⟩ := peelB h
  obtain ⟨n7, h⟩ := peelB h
  exact ⟨by simpa using n1, by simpa using n2, by simpa using n3, by simpa using n4,
    by simpa using n5, by simpa using n6, by simpa using n7⟩

theorem absoluteForceEligible_true_decomp (s : State) (q : Person) (d : Int) (stp : ShiftType)
    (h : absoluteForceEligible s q d stp = true) :
    (stp == ShiftType.NIGHT && !q.can_do_night) = false ∧
    (stp == ShiftType.FULL_24H && !q.can_do_24h) = false ∧
    decide (d ∈ q.assigned_dates) = false ∧
    (nightKind stp && !(checkNightGapWithAllShifts s q.name d 3)) = false ∧
    (nightKind stp && !(checkReverseNightToDayGap s q.name d 3)) = false ∧
    (dayKind stp && !(checkDayGapWithAllShifts s q.name d 3)) = false ∧
    (dayKind stp && !(checkNightToDayGap s q.name d 3)) = false := by
  unfold absoluteForceEligible at h
  obtain ⟨n1, h⟩ := peelB h
  obtain ⟨n2, h⟩ := peelB h
  obtain ⟨n3, h⟩ := peelB h
  obtain ⟨n4, h⟩ := peelB h
  obtain ⟨n5, h⟩ := peelB h
  obtain ⟨n6, h⟩ := peelB h
  obtain ⟨n7, h⟩ := peelB h
  exact ⟨by simpa using n1, by simpa using n2, by simpa using n3, by simpa using n4,
    by simpa using n5, by simpa using n6, by simpa using n7⟩

theorem any_filter_map {α β : Type} (l : List α) (q : α → Bool) (f : α → β) (p : β → Bool) :
    ((l.filter q).map f).any p = l.any fun a => q a && p (f a) := by
  induction l with
  | nil => rfl
  | cons x xs ih =>
      by_cases hq : q x = true
      · simp [List.filter_cons, hq, ih]
      · simp only [Bool.not_eq_true] at hq
        simp [List.filter_cons, hq, ih]

theorem checkDayGap_eq_not_viol (s : State) (name : String) (d g : Int) :
    checkDayGapWithAllShifts s name d g = !(dayDayViol s.schedule name d g) := by
  unfold checkDayGapWithAllShifts getAllDayShifts dayDayViol
  rw [any_filter_map]

theorem checkNightGap_eq_not_viol (s : State) (name : String) (d g : Int) :
    checkNightGapWithAllShifts s name d g = !(nightNightViol s.schedule name d g) := by
  unfold checkNightGapWithAllShifts getAllNightShifts nightNightViol
  rw [any_filter_map]

theorem checkNightToDay_eq_not_viol (s : State) (name : String) (d g : Int) :
    checkNightToDayGap s name d g = !(nightToDayViol s.schedule name d g) := by
  unfold checkNightToDayGap getAllNightShifts nightToDayViol
  rw [any_filter_map]

theorem checkReverse_eq_not_viol (s : State) (name : String) (d g : Int) :
    checkReverseNightToDayGap s name d g = !(dayShiftSoonAfterViol s.schedule name d g) := by
  unfold checkReverseNightToDayGap getAllDayShifts dayShiftSoonAfterViol
  rw [any_filter_map]

theorem pickBest_foldl_mem {l : List (Person × Int)} :
    ∀ {acc : Option (Person × Int)} {c : Person × Int},
      l.foldl
        (fun best c =>
          match best with
          | none => some c
          | some b => if c.2 > b.2 then some c else some b)
        acc = some c → c ∈ l ∨ acc = some c := by
  induction l with
  | nil => intro acc c h; exact Or.inr h
  | cons x xs ih =>
      intro acc c h
      rcases ih h with hmem | hacc
      · exact Or.inl (List.mem_cons_of_mem _ hmem)
      · match acc with
        | none =>
            simp only at hacc
            exact Or.inl (by rw [← Option.some.inj hacc]; exact List.mem_cons_self x xs)
        | some b =>
            simp only at hacc
            by_cases hgt : x.2 > b.2
            · rw [if_pos hgt] at hacc
              exact Or.inl (by rw [← Option.some.inj hacc]; exact List.mem_cons_self x xs)
            · rw [if_neg hgt] at hacc
              exact Or.inr hacc

theorem pickBest_mem {l : List (Person × Int)} {r : Person} (h : pickBest l = some r) :
    ∃ pr, (r, pr) ∈ l := by
  unfold pickBest at h
  rcases Option.map_eq_some'.mp h with ⟨c, hc, hcr⟩
  rcases pickBest_foldl_mem hc with hmem | habs
  · refine ⟨c.2, ?_⟩
    rw [← hcr]
    simpa using hmem
  · cases habs

theorem pickBest_filter_map {staff : List Person} {pred : Person → Bool} {g : Person → Int}
    {r : Person}
    (h : pickBest ((staff.filter pred).map fun q => (q, g q)) = some r) :
    r ∈ staff ∧ pred r = true := by
  obtain ⟨pr, hpr⟩ := pickBest_mem h
  rcases List.mem_map.mp hpr with ⟨q, hq, hqe⟩
  have hq1 : q = r := congrArg Prod.fst hqe
  rcases List.mem_filter.mp hq with ⟨hqs, hqc⟩
  exact ⟨hq1 ▸ hqs, hq1 ▸ hqc⟩

theorem findReplacement_spec {s : State} {d : Int} {stp : ShiftType} {ex : String} {r : Person}
    (h : findReplacement s d stp ex = some r) :
    r ∈ s.staff ∧ (r.name != ex) = true ∧
      ((canAssignShift s r d stp).1 = true ∨ emergencyCanAssign s r d stp = true ∨
       forceEligible s r d stp = true ∨ absoluteForceEligible s r d stp = true) := by
  unfold findReplacement at h
  dsimp only at h
  split at h
  next r1 heq =>
    obtain ⟨hs, hc⟩ := pickBest_filter_map heq
    simp only [Bool.and_eq_true] at hc
    cases h
    exact ⟨hs, hc.1, Or.inl hc.2⟩
  next heq1 =>
    split at h
    next r2 heq =>
      obtain ⟨hs, hc⟩ := pickBest_filter_map heq
      simp only [Bool.and_eq_true] at hc
      cases h
      exact ⟨hs, hc.1, Or.inr (Or.inl hc.2)⟩
    next heq2 =>
      split at h
      next r3 heq =>
        obtain ⟨hs, hc⟩ := pickBest_filter_map heq
        simp only [Bool.and_eq_true] at hc
        cases h
        exact ⟨hs, hc.1, Or.inr (Or.inr (Or.inl hc.2))⟩
      next heq3 =>
        obtain ⟨hs, hc⟩ := pickBest_filter_map h
        simp only [Bool.and_eq_true] at hc
        exact ⟨hs, hc.1, Or.inr (Or.inr (Or.inr hc.2))⟩

theorem canSwapShift_true_decomp (s : State) (fp tp : Person) (d : Int) (stp : ShiftType)
    (h : canSwapShift s fp tp d stp = true) :
    (stp == ShiftType.NIGHT && !tp.can_do_night) = false ∧
    (stp == ShiftType.FULL_24H && !tp.can_do_24h) = false ∧
    isAvailableOn tp d = true ∧
    decide (d ∈ tp.fixed_off_dates) = false ∧
    decide (d ∈ tp.assigned_dates) = false ∧
    (nightKind stp && !(checkNightGapWithAllShifts s tp.name d 5)) = false ∧
    (nightKind stp && !(checkReverseNightToDayGap s tp.name d 3)) = false ∧
    (dayKind stp && !(checkNightToDayGap s tp.name d 3)) = false ∧
    (dayKind stp && !(checkDayGapWithAllShifts s tp.name d 3)) = false ∧
    (isWeekend s d && decide (tp.holiday_shifts > 0)) = false ∧
    (isWeekend s d && weekendPairTaken tp d) = false ∧
    (isWeekend s d && hasThursdayNightThisWeek s tp d) = false ∧
    (weekday d == 3 && nightKind stp &&
      (decide (d + 2 ∈ tp.assigned_dates) || decide (d + 3 ∈ tp.assigned_dates))) = false := by
  unfold canSwapShift at h
  obtain ⟨n1, h⟩ := peelB h
  obtain ⟨n2, h⟩ := peelB h
  obtain ⟨n3, h⟩ := peelB h
  obtain ⟨n4, h⟩ := peelB h
  obtain ⟨n5, h⟩ := peelB h
  obtain ⟨n6, h⟩ := peelB h
  obtain ⟨n7, h⟩ := peelB h
  obtain ⟨n8, h⟩ := peelB h
  obtain ⟨n9, h⟩ := peelB h
  obtain ⟨n10, h⟩ := peelB h
  obtain ⟨n11, h⟩ := peelB h
  obtain ⟨n12, h⟩ := peelB h
  obtain ⟨n13, h⟩ := peelB h
  exact ⟨by simpa using n1, by simpa using n2, by simpa using n3, by simpa using n4,
    by simpa using n5, by simpa using n6, by simpa using n7, by simpa using n8,
    by simpa using n9, by simpa using n10, by simpa using n11, by simpa using n12,
    by simpa using n13⟩

/-- C1 counterexample: `exHolWorker` has a holiday shift and day 6 is a
weekend, yet the emergency checker, both force-tier filters and even the
normal checker (when no alternative staff exists) all admit a weekend
assignment for the holiday worker — the exclusion is not a hard rule at
every tier. -/
theorem holiday_weekend_counterexample :
    exHolWorker.holiday_shifts > 0 ∧
    isWeekend exHolState 6 = true ∧
    emergencyCanAssign exHolState exHolWorker 6 ShiftType.DAY = true ∧
    forceEligible exHolState exHolWorker 6 ShiftType.DAY = true ∧
    absoluteForceEligible exHolState exHolWorker 6 ShiftType.DAY = true ∧
    (canAssignShift exHolState exHolWorker 6 ShiftType.DAY).1 = true := by
  decide

/-- C1 (amended): the holiday-worker weekend exclusion is enforced only at
the normal tier and only conditionally — a holiday worker is refused a
weekend shift whenever some other staff member without holiday shifts passes
the basic availability check; the post-generation swap check refuses moving a
weekend shift to a holiday worker unconditionally. (The emergency and force
tiers perform no holiday-worker check at all.) -/
theorem holiday_weekend_soft_block :
    (∀ (s : State) (p : Person) (d : Int) (stp : ShiftType),
        p.holiday_shifts > 0 → isWeekend s d = true →
        (∃ q ∈ s.staff, (q.name != p.name) = true ∧ q.holiday_shifts = 0 ∧
            basicCanAssign s q d stp = true) →
        (canAssignShift s p d stp).1 = false) ∧
    (∀ (s : State) (fp tp : Person) (d : Int) (stp : ShiftType),
        isWeekend s d = true → tp.holiday_shifts > 0 →
        canSwapShift s fp tp d stp = false) := by
  constructor
  · intro s p d stp hp hw hex
    cases hres : (canAssignShift s p d stp).1
    · rfl
    · exfalso
      have c13 := (canAssignShift_true_decomp s p d stp hres).2.2.2.2.2.2.2.2.2.2.2.2.1
      rw [hw, Bool.true_and] at c13
      have hblk : holidayWeekendBlocked s p d stp = true := by
        unfold holidayWeekendBlocked
        simp only [Bool.and_eq_true, decide_eq_true_eq, List.any_eq_true]
        obtain ⟨q, hqs, hq1, hq2, hq3⟩ := hex
        exact ⟨hp, q, hqs, by simp [hq1, hq2, hq3]⟩
      rw [hblk] at c13
      simp at c13
  · intro s fp tp d stp hw hp
    cases hres : canSwapShift s fp tp d stp
    · rfl
    · exfalso
      have c10 := (canSwapShift_true_decomp s fp tp d stp hres).2.2.2.2.2.2.2.2.2.1
      rw [hw, Bool.true_and] at c10
      simp [hp] at c10

/-- C1 witness: the soft block and the swap block fire on the concrete
holiday worker with an available colleague. -/
theorem holiday_weekend_soft_block_witness :
    (canAssignShift exHolState2 exHolWorker 6 ShiftType.DAY).1 = false ∧
    canSwapShift exHolState2 exFresh exHolWorker 6 ShiftType.DAY = false := by
  constructor
  · exact holiday_weekend_soft_block.1 exHolState2 exHolWorker 6 ShiftType.DAY
      (by decide) (by decide) ⟨exFresh, by decide, by decide, by decide, by decide⟩
  · exact holiday_weekend_soft_block.2 exHolState2 exFresh exHolWorker 6 ShiftType.DAY
      (by decide) (by decide)

/-- C4 counterexample: the emergency checker admits a night shift whose gap
to an existing night shift is 3 days (not ≥4 as claimed), and it performs no
holiday-worker weekend check (the normal tier refuses where it admits). -/
theorem emergency_gap_counterexample :
    ((("N", 9), ShiftType.NIGHT) ∈ exNightState.schedule) ∧
    (|(12 : Int) - 9| = 3) ∧
    emergencyCanAssign exNightState exNightP 12 ShiftType.NIGHT = true ∧
    (canAssignShift exNightState exNightP 12 ShiftType.NIGHT).1 = false ∧
    emergencyCanAssign exHolState2 exHolWorker 6 ShiftType.DAY = true ∧
    (canAssignShift exHolState2 exHolWorker 6 ShiftType.DAY).1 = false ∧
    exHolWorker.holiday_shifts > 0 ∧ isWeekend exHolState2 6 = true := by
  decide

/-- C4 (amended): the emergency checker admits a Night/Full24h shift only
when every existing Night/Full24h shift of the person is at least 3 calendar
days away; it is otherwise exactly the basic (non-fairness) portion of the
normal tier — everything the basic normal check admits it admits, and
whenever the candidate also satisfies the normal 5-day night gap it coincides
with the basic normal check. It contains no holiday-worker or fairness
blocks. -/
theorem emergency_tier_amended :
    (∀ (s : State) (p : Person) (d : Int) (stp : ShiftType),
        nightKind stp = true → emergencyCanAssign s p d stp = true →
        nightNightViol s.schedule p.name d 3 = false) ∧
    (∀ (s : State) (p : Person) (d : Int) (stp : ShiftType),
        basicCanAssign s p d stp = true → emergencyCanAssign s p d stp = true) ∧
    (∀ (s : State) (p : Person) (d : Int) (stp : ShiftType),
        emergencyCanAssign s p d stp = true →
        nightNightViol s.schedule p.name d 5 = false →
        basicCanAssign s p d stp = true) := by
  refine ⟨?_, ?_, ?_⟩
  · intro s p d stp hk h
    have c6 := (emergencyCanAssign_true_decomp s p d stp h).2.2.2.2.2.1
    rwa [hk, Bool.true_and] at c6
  · intro s p d stp h
    obtain ⟨h1, h2, h3, h4, h5, h6, h7, h8, h9, h10, h11⟩ := basicCanAssign_true_decomp s p d stp h
    have h6' : (nightKind stp && nightNightViol s.schedule p.name d 3) = false := by
      cases hk : nightKind stp
      · simp
      · rw [Bool.true_and]
        rw [hk, Bool.true_and] at h6
        cases hv : nightNightViol s.schedule p.name d 3
        · rfl
        · exact absurd
            (show nightNightViol s.schedule p.name d 5 = true from
              nightNightViol_mono (by norm_num) hv)
            (by simp [h6])
    exact emergencyCanAssign_intro s p d stp h1 h2 h3 h4 h5 h6' h7 h8 h9 h10 h11
  · intro s p d stp h hv5
    obtain ⟨h1, h2, h3, h4, h5, h6, h7, h8, h9, h10, h11⟩ :=
      emergencyCanAssign_true_decomp s p d stp h
    exact basicCanAssign_intro s p d stp h1 h2 h3 h4 h5
      (by rw [hv5, Bool.and_false]) h7 h8 h9 h10 h11

/-- C4 witness: the three parts of the amended statement instantiated on the
concrete states. -/
theorem emergency_tier_amended_witness :
    nightNightViol exNightState.schedule exNightP.name 12 3 = false ∧
    emergencyCanAssign exDayState exDayP 4 ShiftType.DAY = true ∧
    basicCanAssign exDayState exDayP 4 ShiftType.DAY = true := by
  refine ⟨?_, ?_, ?_⟩
  · exact emergency_tier_amended.1 exNightState exNightP 12 ShiftType.NIGHT
      (by decide) (by decide)
  · exact emergency_tier_amended.2.1 exDayState exDayP 4 ShiftType.DAY (by decide)
  · exact emergency_tier_amended.2.2 exDayState exDayP 4 ShiftType.DAY (by decide) (by decide)

/-- C5 counterexample: a Day assignment 3 days after an existing Day shift
(|4 − 1| = 3 < 4) is admitted by every checker, refuting the claimed ≥4-day
day-to-day rule. -/
theorem day_gap_counterexample :
    ((("D", 1), ShiftType.DAY) ∈ exDayState.schedule) ∧
    (|(4 : Int) - 1| < 4) ∧
    (canAssignShift exDayState exDayP 4 ShiftType.DAY).1 = true ∧
    basicCanAssign exDayState exDayP 4 ShiftType.DAY = true ∧
    emergencyCanAssign exDayState exDayP 4 ShiftType.DAY = true := by
  decide

/-- C5 (amended): at every tier a Day/Full24h assignment is refused whenever
the person holds a Day/Full24h shift fewer than 3 calendar days away
(day-to-day gap ≥ 3), checked against every existing assignment; the
replacement search never returns a person violating that bound either. -/
theorem day_gap_three_all_tiers :
    (∀ (s : State) (p : Person) (d : Int) (stp : ShiftType),
        dayKind stp = true → dayDayViol s.schedule p.name d 3 = true →
        (canAssignShift s p d stp).1 = false ∧ basicCanAssign s p d stp = false ∧
          emergencyCanAssign s p d stp = false) ∧
    (∀ (s : State) (d : Int) (stp : ShiftType) (ex : String) (r : Person),
        dayKind stp = true → findReplacement s d stp ex = some r →
        dayDayViol s.schedule r.name d 3 = false) := by
  constructor
  · intro s p d stp hk hv
    refine ⟨?_, ?_, ?_⟩
    · cases hres : (canAssignShift s p d stp).1
      · rfl
      · have c9 := (canAssignShift_true_decomp s p d stp hres).2.2.2.2.2.2.2.2.1
        rw [hk, Bool.true_and, hv] at c9
        simp at c9
    · cases hres : basicCanAssign s p d stp
      · rfl
      · have c9 := (basicCanAssign_true_decomp s p d stp hres).2.2.2.2.2.2.2.2.1
        rw [hk, Bool.true_and, hv] at c9
        simp at c9
    · cases hres : emergencyCanAssign s p d stp
      · rfl
      · have c9 := (emergencyCanAssign_true_decomp s p d stp hres).2.2.2.2.2.2.2.2.1
        rw [hk, Bool.true_and, hv] at c9
        simp at c9
  · intro s d stp ex r hk hrep
    obtain ⟨hs, hne, hcases⟩ := findReplacement_spec hrep
    cases hv : dayDayViol s.schedule r.name d 3
    · rfl
    · exfalso
      rcases hcases with h1 | h2 | h3 | h4
      · have c9 := (canAssignShift_true_decomp s r d stp h1).2.2.2.2.2.2.2.2.1
        rw [hk, Bool.true_and, hv] at c9
        simp at c9
      · have c9 := (emergencyCanAssign_true_decomp s r d stp h2).2.2.2.2.2.2.2.2.1
        rw [hk, Bool.true_and, hv] at c9
        simp at c9
      · have c7 := (forceEligible_true_decomp s r d stp h3).2.2.2.2.2.2
        rw [hk, Bool.true_and, checkDayGap_eq_not_viol, hv] at c7
        simp at c7
      · have c6 := (absoluteForceEligible_true_decomp s r d stp h4).2.2.2.2.2.1
        rw [hk, Bool.true_and, checkDayGap_eq_not_viol, hv] at c6
        simp at c6

/-- C5 witness: the 3-day bound refuses a gap-1 candidate at all three
checkers, and the replacement search on the concrete state returns the
only (gap-respecting) candidate. -/
theorem day_gap_three_all_tiers_witness :
    ((canAssignShift exDayState exDayP 2 ShiftType.DAY).1 = false ∧
      basicCanAssign exDayState exDayP 2 ShiftType.DAY = false ∧
      emergencyCanAssign exDayState exDayP 2 ShiftType.DAY = false) ∧
    dayDayViol exDayState.schedule exDayP.name 6 3 = false := by
  constructor
  · exact day_gap_three_all_tiers.1 exDayState exDayP 2 ShiftType.DAY (by decide) (by decide)
  · exact day_gap_three_all_tiers.2 exDayState 6 ShiftType.DAY "X" exDayP (by decide) (by decide)

/-- The per-attempt validator accepts exactly the schedules covering every
non-holiday date (helper form shared by several claims). -/
theorem validateCoverage_iff_aux (s : State) :
    validateCoverage s = true ↔
      ∀ d ∈ s.dates, isHoliday s d = false →
        1 ≤ dayCountOn s.schedule d ∧ 1 ≤ nightCountOn s.schedule d := by
  unfold validateCoverage
  rw [List.all_eq_true]
  constructor
  · intro h d hd hhol
    have hx := h d hd
    rw [hhol] at hx
    simpa using hx
  · intro h d hd
    cases hhol : isHoliday s d
    · have hx := h d hd hhol
      simp [hx.1, hx.2]
    · simp

/-- C6 counterexample: a schedule in which one person is double-booked on
both days of the linked weekend pair (6, 7) and is simultaneously a holiday
worker with weekend shifts, yet `_validate_coverage` accepts it — the
validator re-checks no hard invariant. -/
theorem validate_coverage_counterexample :
    validateCoverage exViolState = true ∧
    ((("V", 6), ShiftType.FULL_24H) ∈ exViolState.schedule) ∧
    ((("V", 7), ShiftType.FULL_24H) ∈ exViolState.schedule) ∧
    getWeekendPair 6 = some 7 ∧
    isWeekend exViolState 6 = true ∧ isWeekend exViolState 7 = true ∧
    exViolP ∈ exViolState.staff ∧
    exViolP.holiday_shifts > 0 ∧ exViolP.weekend_shifts > 0 := by
  decide

/-- C6 (amended): the per-attempt validation checks coverage only — it
accepts a candidate schedule iff every non-holiday date has at least one Day
and one Night occupant (Full24h counting for both); it performs no
holiday-worker, weekend-pair or Thursday-night invariant check. -/
theorem validate_coverage_amended (s : State) :
    validateCoverage s = true ↔
      ∀ d ∈ s.dates, isHoliday s d = false →
        1 ≤ dayCountOn s.schedule d ∧ 1 ≤ nightCountOn s.schedule d :=
  validateCoverage_iff_aux s

/-- C6 witness: the iff applied to the concrete accepted schedule. -/
theorem validate_coverage_amended_witness :
    1 ≤ dayCountOn exViolState.schedule 6 ∧ 1 ≤ nightCountOn exViolState.schedule 6 :=
  (validate_coverage_amended exViolState).mp (by decide) 6 (by decide) (by decide)

/-- C9: calling `reschedule_for_leave` with a name that is not in the staff
roster returns an empty change list and leaves the whole scheduler state
(schedule mapping and every member's counters) unchanged. -/
theorem reschedule_unknown_name (s : State) (name : String) (leaveDates : List Int)
    (h : name ∉ s.staff.map (·.name)) :
    rescheduleForLeave s name leaveDates = (s, []) := by
  unfold rescheduleForLeave
  have hf : s.staff.find? (·.name == name) = none := by
    rw [List.find?_eq_none]
    intro p hp
    simp only [Bool.not_eq_true, beq_eq_false_iff_ne, ne_eq]
    intro hpe
    exact h (List.mem_map.mpr ⟨p, hp, hpe⟩)
  rw [hf]

/-- C9 witness: a concrete unknown name leaves the state untouched. -/
theorem reschedule_unknown_name_witness :
    rescheduleForLeave exDayState "X" [1] = (exDayState, []) :=
  reschedule_unknown_name exDayState "X" [1] (by decide)

/-- C8 counterexample: the half-month member A (14 fixed-off days, ratio
0.5) with one weekend shift is admitted for a further weekend shift even
though the spec's ×2-normalized weekend comparison would refuse it (a raw
comparison is used); the analogous night-count comparison, which does
normalize, refuses the analogous candidate. -/
theorem weekend_norm_counterexample :
    targetFraction exHalfW exWeekendState.dates.length = Q.half ∧
    specNormWeekendBlocked1 exWeekendState exHalfW 6 ShiftType.DAY = true ∧
    weekendFairnessBlocked1 exWeekendState exHalfW 6 ShiftType.DAY = false ∧
    (canAssignShift exWeekendState exHalfW 6 ShiftType.DAY).1 = true ∧
    (canAssignShift exNightFairState exHalfN 2 ShiftType.NIGHT).1 = false := by
  decide

/-- C8 (amended): the target ratio is 0.5 exactly when the fixed-off set has
≥14 dates, and the night-, day- and total-count fairness normalizations
double such a member's raw counts; the weekend-count fairness comparisons of
the checker, however, use raw unnormalized weekend counts — they depend on
the candidate only through name, holiday count and raw weekend count. -/
theorem target_ratio_normalization :
    (∀ (p : Person) (n : Nat),
        targetFraction p n = Q.half ↔ 14 ≤ p.fixed_off_dates.length) ∧
    (∀ (p : Person) (n : Nat), 14 ≤ p.fixed_off_dates.length →
        normNight p n = 2 * p.night_shifts ∧ normTotal p n = 2 * p.total_shifts ∧
          normDay p n = 2 * p.day_shifts) ∧
    (∀ (s : State) (p p' : Person) (d : Int) (stp : ShiftType),
        p.name = p'.name → p.holiday_shifts = p'.holiday_shifts →
        p.weekend_shifts = p'.weekend_shifts →
        weekendFairnessBlocked1 s p d stp = weekendFairnessBlocked1 s p' d stp ∧
          weekendFairnessBlocked2 s p d stp = weekendFairnessBlocked2 s p' d stp) := by
  refine ⟨?_, ?_, ?_⟩
  · intro p n
    by_cases h : 14 ≤ p.fixed_off_dates.length
    · simp [targetFraction, h]
    · simp only [targetFraction, if_neg h]
      constructor
      · intro hq
        exact absurd hq (by decide)
      · intro hl
        exact absurd hl h
  · intro p n h
    have ht : targetFraction p n = Q.half := by simp [targetFraction, h]
    refine ⟨?_, ?_, ?_⟩
    · unfold normNight
      rw [ht]
      have : Q.beqv Q.half Q.half = true := by decide
      rw [this, if_pos rfl]
      omega
    · unfold normTotal
      rw [ht]
      have : Q.beqv Q.half Q.half = true := by decide
      rw [this, if_pos rfl]
      omega
    · unfold normDay
      rw [ht]
      have : Q.beqv Q.half Q.half = true := by decide
      rw [this, if_pos rfl]
      omega
  · intro s p p' d stp h1 h2 h3
    constructor
    · unfold weekendFairnessBlocked1
      rw [h1, h2, h3]
    · unfold weekendFairnessBlocked2
      rw [h1, h2, h3]

/-- C8 witness: the amended statement instantiated on the half-month member. -/
theorem target_ratio_normalization_witness :
    targetFraction exHalfW 14 = Q.half ∧
    normNight exHalfW 14 = 2 * exHalfW.night_shifts ∧
    weekendFairnessBlocked1 exWeekendState exHalfW 6 ShiftType.DAY =
      weekendFairnessBlocked1 exWeekendState exHalfWAsFull 6 ShiftType.DAY := by
  refine ⟨(target_ratio_normalization.1 exHalfW 14).mpr (by decide),
    (target_ratio_normalization.2.1 exHalfW 14 (by decide)).1,
    (target_ratio_normalization.2.2 exWeekendState exHalfW exHalfWAsFull 6 ShiftType.DAY
      rfl rfl rfl).1⟩

/-! ## Schedule-dictionary lemmas -/

theorem schedErase_cons {e : (String × Int) × ShiftType} {l : Sched} {k : String × Int} :
    schedErase (e :: l) k = if e.1 == k then schedErase l k else e :: schedErase l k := by
  unfold schedErase
  rw [List.filter_cons]
  cases he : (e.1 == k) <;> simp [he]

theorem schedLookup_cons {e : (String × Int) × ShiftType} {sched : Sched} {k : String × Int} :
    schedLookup (e :: sched) k = if e.1 == k then some e.2 else schedLookup sched k := by
  unfold schedLookup
  rw [List.find?_cons]
  cases he : (e.1 == k) <;> simp [he]

theorem keysOf_erase_subset {sched : Sched} {k k' : String × Int}
    (h : k' ∈ keysOf (schedErase sched k)) : k' ∈ keysOf sched := by
  unfold keysOf schedErase at *
  rcases List.mem_map.mp h with ⟨e, he, hek⟩
  exact List.mem_map.mpr ⟨e, List.mem_of_mem_filter he, hek⟩

theorem schedErase_eq_self {sched : Sched} {k : String × Int}
    (h : k ∉ keysOf sched) : schedErase sched k = sched := by
  unfold schedErase
  apply List.filter_eq_self.mpr
  intro e he
  simp only [Bool.not_eq_true']
  cases hek : (e.1 == k)
  · rfl
  · exact absurd (List.mem_map.mpr ⟨e, he, by simpa using hek⟩) h

theorem not_mem_keys_schedErase {sched : Sched} {k : String × Int} :
    k ∉ keysOf (schedErase sched k) := by
  intro h
  unfold keysOf schedErase at h
  rcases List.mem_map.mp h with ⟨e, he, hek⟩
  rcases List.mem_filter.mp he with ⟨_, hne⟩
  rw [hek] at hne
  simp at hne

theorem perm_cons_schedErase {sched : Sched} {k : String × Int} {v : ShiftType}
    (hnd : (keysOf sched).Nodup) (hm : (k, v) ∈ sched) :
    sched.Perm ((k, v) :: schedErase sched k) := by
  induction sched with
  | nil => cases hm
  | cons e rest ih =>
      have hnd' : (keysOf rest).Nodup := (List.nodup_cons.mp hnd).2
      have hhead : e.1 ∉ keysOf rest := (List.nodup_cons.mp hnd).1
      by_cases hek : e.1 = k
      · have he : e = (k, v) := by
          rcases List.mem_cons.mp hm with h' | h'
          · exact h'.symm
          · exfalso
            apply hhead
            rw [hek]
            exact List.mem_map.mpr ⟨(k, v), h', rfl⟩
        have hrest : schedErase rest k = rest := schedErase_eq_self (hek ▸ hhead)
        rw [schedErase_cons, if_pos (by simpa using hek), hrest, ← he]
      · have hm' : (k, v) ∈ rest := by
          rcases List.mem_cons.mp hm with h' | h'
          · exact absurd (congrArg Prod.fst h'.symm) hek
          · exact h'
        rw [schedErase_cons, if_neg (by simpa using hek)]
        exact ((ih hnd' hm').cons e).trans (List.Perm.swap (k, v) e _)

theorem schedLookup_append_single_self {l : Sched} {k : String × Int} {v : ShiftType}
    (h : k ∉ keysOf l) : schedLookup (l ++ [(k, v)]) k = some v := by
  induction l with
  | nil => simp [schedLookup]
  | cons e rest ih =>
      have hek : (e.1 == k) = false := by
        cases hq : (e.1 == k)
        · rfl
        · exact absurd (List.mem_map.mpr ⟨e, List.mem_cons_self e rest, by simpa using hq⟩) h
      rw [List.cons_append, schedLookup_cons, hek]
      simp only [Bool.false_eq_true, if_false]
      exact ih fun hmem => h (List.mem_cons_of_mem _ hmem)

theorem schedLookup_append_single_ne {l : Sched} {k k' : String × Int} {v : ShiftType}
    (h : k' ≠ k) : schedLookup (l ++ [(k, v)]) k' = schedLookup l k' := by
  induction l with
  | nil =>
      rw [List.nil_append, schedLookup_cons]
      have hok : (((k, v) : (String × Int) × ShiftType).1 == k') = false := by
        simpa using fun hc : k = k' => h hc.symm
      rw [hok]
      simp [schedLookup]
  | cons e rest ih =>
      rw [List.cons_append, schedLookup_cons, schedLookup_cons]
      cases he : (e.1 == k') <;> simp [he, ih]

theorem schedLookup_schedErase_ne {sched : Sched} {k k' : String × Int}
    (h : k' ≠ k) : schedLookup (schedErase sched k) k' = schedLookup sched k' := by
  induction sched with
  | nil => rfl
  | cons e rest ih =>
      rw [schedErase_cons]
      by_cases hek : (e.1 == k) = true
      · have hek' : (e.1 == k') = false := by
          have he1 : e.1 = k := by simpa using hek
          cases hq : (e.1 == k')
          · rfl
          · exact absurd (by simpa using hq : e.1 = k') (he1 ▸ fun hc => h hc.symm)
        rw [if_pos hek, ih, schedLookup_cons, hek']
        simp
      · rw [if_neg hek, schedLookup_cons, schedLookup_cons]
        cases he : (e.1 == k') <;> simp [he, ih]

theorem schedLookup_eq_some_of_mem {sched : Sched} {k : String × Int} {v : ShiftType}
    (hnd : (keysOf sched).Nodup) (hm : (k, v) ∈ sched) :
    schedLookup sched k = some v := by
  induction sched with
  | nil => cases hm
  | cons e rest ih =>
      have hnd' : (keysOf rest).Nodup := (List.nodup_cons.mp hnd).2
      have hhead : e.1 ∉ keysOf rest := (List.nodup_cons.mp hnd).1
      rw [schedLookup_cons]
      rcases List.mem_cons.mp hm with h' | h'
      · rw [← h']
        simp
      · have hek : (e.1 == k) = false := by
          cases hq : (e.1 == k)
          · rfl
          · exact absurd (List.mem_map.mpr ⟨(k, v), h', (by simpa using hq : e.1 = k).symm⟩)
              hhead
        rw [hek]
        simp only [Bool.false_eq_true, if_false]
        exact ih hnd' h'

theorem schedLookup_eq_none {sched : Sched} {k : String × Int}
    (h : k ∉ keysOf sched) : schedLookup sched k = none := by
  unfold schedLookup
  rw [Option.map_eq_none', List.find?_eq_none]
  intro e he
  cases hq : (e.1 == k)
  · simp
  · exact absurd (List.mem_map.mpr ⟨e, he, by simpa using hq⟩) h

theorem length_filter_erase_append {sched : Sched} {k1 k2 : String × Int} {v : ShiftType}
    (hnd : (keysOf sched).Nodup) (hm : (k1, v) ∈ sched) (hd : k1.2 = k2.2)
    (pk : Int → ShiftType → Bool) :
    ((schedErase sched k1 ++ [(k2, v)]).filter fun e => pk e.1.2 e.2).length =
      (sched.filter fun e => pk e.1.2 e.2).length := by
  rw [List.filter_append, List.length_append]
  have hlen := ((perm_cons_schedErase hnd hm).filter (fun e => pk e.1.2 e.2)).length_eq
  rw [List.filter_cons] at hlen
  by_cases hp : pk k1.2 v = true
  · rw [if_pos (by simpa using hp)] at hlen
    rw [hlen, List.length_cons]
    have h2 : pk k2.2 v = true := hd ▸ hp
    simp [List.filter_cons, h2]
  · rw [if_neg (by simpa using hp)] at hlen
    rw [hlen]
    have h2 : pk k2.2 v = false := by
      rw [← hd]
      simpa using hp
    simp [List.filter_cons, h2]

/-- `_can_swap_shift` requires `d not in to_person.assigned_dates`, so in a
well-formed state the target key is absent from the schedule dict. -/
theorem swap_notin {s : State} {fp tp : Person} {d : Int} {stp : ShiftType}
    (hc5 : ∀ e ∈ s.schedule, ∀ p ∈ s.staff, p.name = e.1.1 → e.1.2 ∈ p.assigned_dates)
    (htp : tp ∈ s.staff) (hswap : canSwapShift s fp tp d stp = true) :
    (tp.name, d) ∉ keysOf s.schedule := by
  have hassigned := (canSwapShift_true_decomp s fp tp d stp hswap).2.2.2.2.1
  intro hk
  rcases List.mem_map.mp hk with ⟨e, he, hek⟩
  have hin := hc5 e he tp htp (congrArg Prod.fst hek).symm
  rw [congrArg Prod.snd hek] at hin
  simp [hin] at hassigned

/-- When the target key is fresh, `_perform_swap` leaves an erase-then-append
schedule. -/
theorem swap_sched_form {s : State} {fp tp : Person} {d : Int} {stp : ShiftType}
    (hnotin : (tp.name, d) ∉ keysOf s.schedule) :
    (performSwap s fp tp d stp).schedule =
      schedErase s.schedule (fp.name, d) ++ [((tp.name, d), stp)] := by
  show schedInsert (schedErase s.schedule (fp.name, d)) (tp.name, d) stp = _
  unfold schedInsert
  rw [schedErase_eq_self fun hk => hnotin (keysOf_erase_subset hk)]

/-- The frame property of `_perform_swap` (shared worker): the target date
maps the new person to the same shift kind, the old entry is gone, every
other key is unchanged, and each date's Day and Night occupancy counts are
identical. -/
theorem perform_swap_frame_aux (s : State) (fp tp : Person) (d : Int) (stp : ShiftType)
    (hwf : WF s) (htp : tp ∈ s.staff)
    (hmem : ((fp.name, d), stp) ∈ s.schedule)
    (hnames : fp.name ≠ tp.name)
    (hswap : canSwapShift s fp tp d stp = true) :
    schedLookup (performSwap s fp tp d stp).schedule (tp.name, d) = some stp ∧
    schedLookup (performSwap s fp tp d stp).schedule (fp.name, d) = none ∧
    (∀ k, k ≠ (fp.name, d) → k ≠ (tp.name, d) →
      schedLookup (performSwap s fp tp d stp).schedule k = schedLookup s.schedule k) ∧
    ∀ dd, dayCountOn (performSwap s fp tp d stp).schedule dd = dayCountOn s.schedule dd ∧
      nightCountOn (performSwap s fp tp d stp).schedule dd = nightCountOn s.schedule dd := by
  obtain ⟨hnd, _, _, _, hcons⟩ := hwf
  have hnotin : (tp.name, d) ∉ keysOf s.schedule := swap_notin hcons htp hswap
  have hform : (performSwap s fp tp d stp).schedule =
      schedErase s.schedule (fp.name, d) ++ [((tp.name, d), stp)] :=
    swap_sched_form hnotin
  refine ⟨?_, ?_, ?_, ?_⟩
  · rw [hform]
    exact schedLookup_append_single_self fun hk => hnotin (keysOf_erase_subset hk)
  · rw [hform,
      schedLookup_append_single_ne (fun hc => hnames (congrArg Prod.fst hc))]
    exact schedLookup_eq_none not_mem_keys_schedErase
  · intro k hk1 hk2
    rw [hform, schedLookup_append_single_ne hk2, schedLookup_schedErase_ne hk1]
  · intro dd
    have hd2 : ((fp.name, d) : String × Int).2 = ((tp.name, d) : String × Int).2 := rfl
    constructor
    · rw [hform]
      unfold dayCountOn
      exact length_filter_erase_append hnd hmem hd2 fun dt kd => dt == dd && dayKind kd
    · rw [hform]
      unfold nightCountOn
      exact length_filter_erase_append hnd hmem hd2 fun dt kd => dt == dd && nightKind kd

/-- C10: every swap performed by the post-generation optimizer moves exactly
one (date, shiftKind) entry: after `_perform_swap` the target date maps the
new person to the same shift kind, the old entry is gone, every other key is
unchanged, and each date's Day and Night occupancy counts are identical. -/
theorem perform_swap_frame (s : State) (fp tp : Person) (d : Int) (stp : ShiftType)
    (hwf : WF s) (htp : tp ∈ s.staff)
    (hmem : ((fp.name, d), stp) ∈ s.schedule)
    (hnames : fp.name ≠ tp.name)
    (hswap : canSwapShift s fp tp d stp = true) :
    schedLookup (performSwap s fp tp d stp).schedule (tp.name, d) = some stp ∧
    schedLookup (performSwap s fp tp d stp).schedule (fp.name, d) = none ∧
    (∀ k, k ≠ (fp.name, d) → k ≠ (tp.name, d) →
      schedLookup (performSwap s fp tp d stp).schedule k = schedLookup s.schedule k) ∧
    ∀ dd, dayCountOn (performSwap s fp tp d stp).schedule dd = dayCountOn s.schedule dd ∧
      nightCountOn (performSwap s fp tp d stp).schedule dd = nightCountOn s.schedule dd :=
  perform_swap_frame_aux s fp tp d stp hwf htp hmem hnames hswap

/-- C10 witness: the concrete swap of the day-9 shift from S1 to S2. -/
theorem perform_swap_frame_witness :
    schedLookup (performSwap exSwapState exSwapFrom exSwapTo 9 ShiftType.DAY).schedule
        (exSwapTo.name, 9) = some ShiftType.DAY ∧
    schedLookup (performSwap exSwapState exSwapFrom exSwapTo 9 ShiftType.DAY).schedule
        (exSwapFrom.name, 9) = none ∧
    dayCountOn (performSwap exSwapState exSwapFrom exSwapTo 9 ShiftType.DAY).schedule 9 =
      dayCountOn exSwapState.schedule 9 := by
  have h := perform_swap_frame exSwapState exSwapFrom exSwapTo 9 ShiftType.DAY
    (by decide) (by decide) (by decide) (by decide) (by decide)
  exact ⟨h.1, h.2.1, (h.2.2.2 9).1⟩

/-! ## C7 — leave rescheduling restore path -/

theorem updateStaff_updateStaff {staff : List Person} {a b : Person} (h : b.name = a.name) :
    updateStaff (updateStaff staff a) b = updateStaff staff b := by
  unfold updateStaff
  rw [List.map_map]
  apply List.map_congr_left
  intro q _
  simp only [Function.comp]
  by_cases hqa : (q.name == a.name) = true
  · have hqb : (q.name == b.name) = true := by
      rw [h]
      exact hqa
    simp [hqa, hqb, h]
  · have hqb : (q.name == b.name) = false := by
      rw [h]
      simpa using hqa
    simp [hqa, hqb]

theorem mem_insert_filter {l : List Int} {d x : Int} (hd : d ∈ l) :
    (x ∈ (l.filter fun y => !(y == d)).insert d) ↔ x ∈ l := by
  rw [List.mem_insert_iff]
  constructor
  · rintro (rfl | hx)
    · exact hd
    · exact (List.mem_filter.mp hx).1
  · intro hx
    by_cases hxd : x = d
    · exact Or.inl hxd
    · exact Or.inr (List.mem_filter.mpr ⟨hx, by simpa using hxd⟩)

theorem addRemove_roundtrip (st st1 : State) (p : Person) (d : Int) (stp : ShiftType)
    (hw : isWeekend st1 d = isWeekend st d) (hh : isHoliday st1 d = isHoliday st d)
    (hass : d ∈ p.assigned_dates) :
    (addShiftStats st1 (removeShiftStats st p d stp) d stp).name = p.name ∧
    (addShiftStats st1 (removeShiftStats st p d stp) d stp).total_shifts = p.total_shifts ∧
    (addShiftStats st1 (removeShiftStats st p d stp) d stp).day_shifts = p.day_shifts ∧
    (addShiftStats st1 (removeShiftStats st p d stp) d stp).night_shifts = p.night_shifts ∧
    (addShiftStats st1 (removeShiftStats st p d stp) d stp).shifts_24h = p.shifts_24h ∧
    (addShiftStats st1 (removeShiftStats st p d stp) d stp).weekend_shifts =
      p.weekend_shifts ∧
    (addShiftStats st1 (removeShiftStats st p d stp) d stp).holiday_shifts =
      p.holiday_shifts ∧
    (addShiftStats st1 (removeShiftStats st p d stp) d stp).weighted_total =
      p.weighted_total ∧
    ∀ x, (x ∈ (addShiftStats st1 (removeShiftStats st p d stp) d stp).assigned_dates) ↔
      x ∈ p.assigned_dates := by
  refine ⟨?_, ?_, ?_, ?_, ?_, ?_, ?_, ?_, fun x => ?_⟩ <;>
    · unfold addShiftStats removeShiftStats
      rw [hw, hh]
      cases stp <;> split_ifs <;> simp <;>
        first
          | omega
          | exact Iff.intro
              (fun hor => hor.elim (fun hxe => by rw [hxe]; exact hass) (fun hx => hx.1))
              (fun hx => if hxd : x = d then Or.inl hxd else Or.inr ⟨hx, hxd⟩)

theorem removeShiftStats_name (st : State) (p : Person) (d : Int) (stp : ShiftType) :
    (removeShiftStats st p d stp).name = p.name := by
  unfold removeShiftStats
  cases stp <;> split_ifs <;> rfl

theorem addShiftStats_name (st : State) (p : Person) (d : Int) (stp : ShiftType) :
    (addShiftStats st p d stp).name = p.name := by
  unfold addShiftStats
  cases stp <;> split_ifs <;> rfl

theorem leave_restore_red (st : State) (chs : List Change) (name : String)
    (d : Int) (stp : ShiftType) (p : Person)
    (hfind : st.staff.find? (·.name == name) = some p)
    (hnone : findReplacement
        { st with
          schedule := schedErase st.schedule (name, d)
          staff := updateStaff st.staff (removeShiftStats st p d stp) } d stp name = none) :
    leaveStep name (st, chs) (d, stp) =
      (assignShift
        { st with
          schedule := schedErase st.schedule (name, d)
          staff := updateStaff st.staff (removeShiftStats st p d stp) }
        (removeShiftStats st p d stp) d stp,
       chs ++ [⟨d, stp, name, name, true⟩]) := by
  unfold leaveStep
  dsimp only
  rw [hfind]
  dsimp only
  rw [hnone]

/-- C7 (amended): when no replacement is found at any of the four tiers, the
shift is restored to the leave-taker: the schedule map is unchanged at every
key, per-date coverage is unchanged, a change record with new holder equal to
the original holder and the warning flag set is appended, and the
leave-taker's numeric counters (total, day, night, 24h, weekend, holiday,
weighted) and assigned-date set equal their values before the removal — but
`last_day_shift`/`last_night_shift` are rewound to the restored date. The
model is total: no error can be raised. -/
theorem leave_restore_on_failure (st : State) (chs : List Change) (name : String)
    (d : Int) (stp : ShiftType) (p : Person)
    (hfind : st.staff.find? (·.name == name) = some p)
    (hnd : (keysOf st.schedule).Nodup)
    (hmem : ((name, d), stp) ∈ st.schedule)
    (hass : d ∈ p.assigned_dates)
    (hnone : findReplacement
        { st with
          schedule := schedErase st.schedule (name, d)
          staff := updateStaff st.staff (removeShiftStats st p d stp) } d stp name = none) :
    (leaveStep name (st, chs) (d, stp)).2 = chs ++ [⟨d, stp, name, name, true⟩] ∧
    (∀ k, schedLookup (leaveStep name (st, chs) (d, stp)).1.schedule k =
      schedLookup st.schedule k) ∧
    (∀ dd, dayCountOn (leaveStep name (st, chs) (d, stp)).1.schedule dd =
        dayCountOn st.schedule dd ∧
      nightCountOn (leaveStep name (st, chs) (d, stp)).1.schedule dd =
        nightCountOn st.schedule dd) ∧
    ∃ p', (leaveStep name (st, chs) (d, stp)).1.staff = updateStaff st.staff p' ∧
      p'.name = p.name ∧ p'.total_shifts = p.total_shifts ∧ p'.day_shifts = p.day_shifts ∧
      p'.night_shifts = p.night_shifts ∧ p'.shifts_24h = p.shifts_24h ∧
      p'.weekend_shifts = p.weekend_shifts ∧ p'.holiday_shifts = p.holiday_shifts ∧
      p'.weighted_total = p.weighted_total ∧
      ∀ x, (x ∈ p'.assigned_dates ↔ x ∈ p.assigned_dates) := by
  have hpname : p.name = name := by simpa using List.find?_some hfind
  have hred := leave_restore_red st chs name d stp p hfind hnone
  have hp'name : (removeShiftStats st p d stp).name = name := by
    rw [removeShiftStats_name]
    exact hpname
  have hsched : (leaveStep name (st, chs) (d, stp)).1.schedule =
      schedErase st.schedule (name, d) ++ [((name, d), stp)] := by
    rw [hred]
    show schedInsert (schedErase st.schedule (name, d))
      ((removeShiftStats st p d stp).name, d) stp = _
    rw [hp'name]
    unfold schedInsert
    rw [schedErase_eq_self not_mem_keys_schedErase]
  refine ⟨by rw [hred], ?_, ?_, ?_⟩
  · intro k
    by_cases hk : k = (name, d)
    · rw [hsched, hk, schedLookup_append_single_self not_mem_keys_schedErase,
        schedLookup_eq_some_of_mem hnd hmem]
    · rw [hsched, schedLookup_append_single_ne hk, schedLookup_schedErase_ne hk]
  · intro dd
    constructor
    · rw [hsched]
      unfold dayCountOn
      exact length_filter_erase_append hnd hmem rfl fun dt kd => dt == dd && dayKind kd
    · rw [hsched]
      unfold nightCountOn
      exact length_filter_erase_append hnd hmem rfl fun dt kd => dt == dd && nightKind kd
  · refine ⟨addShiftStats
        { st with
          schedule := schedErase st.schedule (name, d)
          staff := updateStaff st.staff (removeShiftStats st p d stp) }
        (removeShiftStats st p d stp) d stp, ?_, ?_⟩
    · rw [hred]
      show updateStaff (updateStaff st.staff (removeShiftStats st p d stp)) _ = _
      exact updateStaff_updateStaff (by rw [addShiftStats_name, removeShiftStats_name])
    · have hrt := addRemove_roundtrip st
        { st with
          schedule := schedErase st.schedule (name, d)
          staff := updateStaff st.staff (removeShiftStats st p d stp) }
        p d stp rfl rfl hass
      exact ⟨hrt.1, hrt.2.1, hrt.2.2.1, hrt.2.2.2.1, hrt.2.2.2.2.1, hrt.2.2.2.2.2.1,
        hrt.2.2.2.2.2.2.1, hrt.2.2.2.2.2.2.2.1, hrt.2.2.2.2.2.2.2.2⟩

/-- C7 counterexample: with the leave-taker as sole staff member no
replacement exists; the original day-5 shift is restored with a warning
record, but the leave-taker's `last_day_shift` counter (19 before the call,
since day 19 holds their most recent day shift) ends up rewound to 5 — the
counters are not all exactly as before the removal. -/
theorem leave_restore_counterexample :
    (rescheduleForLeave exLeaveState "P" [5]).2 =
      [⟨5, ShiftType.DAY, "P", "P", true⟩] ∧
    exLeaveP.last_day_shift = some 19 ∧
    ((rescheduleForLeave exLeaveState "P" [5]).1.staff.find? (·.name == "P")).map
        (·.last_day_shift) = some (some 5) ∧
    schedLookup (rescheduleForLeave exLeaveState "P" [5]).1.schedule ("P", 5) =
      some ShiftType.DAY := by
  decide

/-- C7 witness: the restore path instantiated on the concrete one-person
state (day-5 shift, replacement search fails at all four tiers). -/
theorem leave_restore_on_failure_witness :
    (leaveStep "P" (exLeaveState, []) (5, ShiftType.DAY)).2 =
      [⟨5, ShiftType.DAY, "P", "P", true⟩] ∧
    schedLookup (leaveStep "P" (exLeaveState, []) (5, ShiftType.DAY)).1.schedule ("P", 5) =
      schedLookup exLeaveState.schedule ("P", 5) ∧
    dayCountOn (leaveStep "P" (exLeaveState, []) (5, ShiftType.DAY)).1.schedule 5 =
      dayCountOn exLeaveState.schedule 5 := by
  have h := leave_restore_on_failure exLeaveState [] "P" 5 ShiftType.DAY exLeaveP
    (by decide) (by decide) (by decide) (by decide) (by decide)
  exact ⟨by simpa using h.1, h.2.1 ("P", 5), (h.2.2.1 5).1⟩

/-! ## Optimizer preservation: list and dictionary helpers -/

theorem all_congr_helper {α : Type} {f g : α → Bool} :
    ∀ l : List α, (∀ a ∈ l, f a = g a) → l.all f = l.all g
  | [], _ => rfl
  | x :: xs, h => by
      simp only [List.all_cons]
      rw [h x (List.mem_cons_self x xs),
        all_congr_helper xs fun a ha => h a (List.mem_cons_of_mem x ha)]

theorem validate_eq_of {s s' : State} (h1 : s'.dates = s.dates)
    (h2 : s'.holidays = s.holidays)
    (h3 : ∀ dd, dayCountOn s'.schedule dd = dayCountOn s.schedule dd ∧
      nightCountOn s'.schedule dd = nightCountOn s.schedule dd) :
    validateCoverage s' = validateCoverage s := by
  unfold validateCoverage isHoliday
  rw [h1, h2]
  apply all_congr_helper
  intro dd _
  rw [(h3 dd).1, (h3 dd).2]

theorem keysOf_append (l1 l2 : Sched) : keysOf (l1 ++ l2) = keysOf l1 ++ keysOf l2 :=
  List.map_append _ _ _

theorem mem_keysOf_schedErase {sched : Sched} {k k' : String × Int} :
    k' ∈ keysOf (schedErase sched k) ↔ k' ∈ keysOf sched ∧ k' ≠ k := by
  unfold keysOf schedErase
  constructor
  · intro h
    rcases List.mem_map.mp h with ⟨e, he, hek⟩
    have hf := List.mem_filter.mp he
    refine ⟨List.mem_map.mpr ⟨e, hf.1, hek⟩, ?_⟩
    intro hkk
    have hke : e.1 = k := hek.trans hkk
    simp [hke] at hf
  · rintro ⟨h1, h2⟩
    rcases List.mem_map.mp h1 with ⟨e, he, hek⟩
    refine List.mem_map.mpr ⟨e, List.mem_filter.mpr ⟨he, ?_⟩, hek⟩
    simp [hek, h2]

theorem nodup_append_single {α : Type} {l : List α} {a : α}
    (h1 : l.Nodup) (h2 : a ∉ l) : (l ++ [a]).Nodup :=
  h1.append (List.nodup_singleton a)
    (by intro x hx hxa; rw [List.mem_singleton] at hxa; exact h2 (hxa ▸ hx))

theorem nodup_keys_schedErase {sched : Sched} {k : String × Int}
    (h : (keysOf sched).Nodup) : (keysOf (schedErase sched k)).Nodup := by
  unfold keysOf schedErase
  exact List.Nodup.sublist ((List.filter_sublist sched).map (·.1)) h

theorem swap_keys_nodup {sched : Sched} {k1 k2 : String × Int} {v : ShiftType}
    (hnd : (keysOf sched).Nodup) (hnotin : k2 ∉ keysOf sched) :
    (keysOf (schedErase sched k1 ++ [(k2, v)])).Nodup := by
  rw [keysOf_append]
  exact nodup_append_single (nodup_keys_schedErase hnd)
    (fun hk => hnotin (mem_keysOf_schedErase.mp hk).1)

theorem addShiftStats_assigned (st : State) (p : Person) (d : Int) (stp : ShiftType) :
    (addShiftStats st p d stp).assigned_dates = p.assigned_dates.insert d := by
  unfold addShiftStats
  cases stp <;> split_ifs <;> rfl

theorem removeShiftStats_assigned (st : State) (p : Person) (d : Int) (stp : ShiftType) :
    (removeShiftStats st p d stp).assigned_dates =
      p.assigned_dates.filter fun x => !(x == d) := by
  unfold removeShiftStats
  cases stp <;> split_ifs <;> rfl

theorem eq_of_name_eq {staff : List Person} (hn : (staff.map (·.name)).Nodup)
    {p q : Person} (hp : p ∈ staff) (hq : q ∈ staff) (h : p.name = q.name) : p = q :=
  List.inj_on_of_nodup_map hn hp hq h



theorem double_update_eq {staff : List Person} {fp tp fp2 tp2 : Person}
    (hfp2n : fp2.name = fp.name) (htp2n : tp2.name = tp.name)
    (hnames : fp.name ≠ tp.name) :
    updateStaff (updateStaff staff fp2) tp2 =
      staff.map fun q =>
        if q.name = fp.name then fp2 else if q.name = tp.name then tp2 else q := by
  unfold updateStaff
  rw [List.map_map]
  apply List.map_congr_left
  intro q _
  show (if (if q.name == fp2.name then fp2 else q).name == tp2.name then tp2
    else (if q.name == fp2.name then fp2 else q)) = _
  by_cases h1 : q.name = fp.name
  · rw [if_pos (beq_iff_eq.mpr (h1.trans hfp2n.symm)),
      if_neg (fun hb => hnames (((hfp2n.symm.trans (beq_iff_eq.mp hb)).trans htp2n))),
      if_pos h1]
  · rw [if_neg (fun hb => h1 (beq_iff_eq.mp hb |>.trans hfp2n))]
    by_cases h2 : q.name = tp.name
    · rw [if_pos (beq_iff_eq.mpr (h2.trans htp2n.symm)), if_neg h1, if_pos h2]
    · rw [if_neg (fun hb => h2 (beq_iff_eq.mp hb |>.trans htp2n)), if_neg h1, if_neg h2]

theorem swap_image_name {fp tp fp2 tp2 : Person}
    (hfp2n : fp2.name = fp.name) (htp2n : tp2.name = tp.name) (q : Person) :
    (if q.name = fp.name then fp2 else if q.name = tp.name then tp2 else q).name =
      q.name := by
  split_ifs with h1 h2
  · rw [hfp2n, h1]
  · rw [htp2n, h2]
  · rfl

theorem swap_staff_wf {s : State} {fp tp fp2 tp2 : Person} {d : Int} {stp : ShiftType}
    (hnodup : (s.staff.map (·.name)).Nodup)
    (hsn : ∀ e ∈ s.schedule, ∃ p ∈ s.staff, p.name = e.1.1)
    (hc4 : ∀ p ∈ s.staff, ∀ x ∈ p.assigned_dates, (p.name, x) ∈ keysOf s.schedule)
    (hc5 : ∀ e ∈ s.schedule, ∀ p ∈ s.staff, p.name = e.1.1 → e.1.2 ∈ p.assigned_dates)
    (hfp : fp ∈ s.staff) (htp : tp ∈ s.staff) (hnames : fp.name ≠ tp.name)
    (hfp2n : fp2.name = fp.name) (htp2n : tp2.name = tp.name)
    (hfp2a : fp2.assigned_dates = fp.assigned_dates.filter fun x => !(x == d))
    (htp2a : tp2.assigned_dates = tp.assigned_dates.insert d) :
    (((updateStaff (updateStaff s.staff fp2) tp2).map (·.name)).Nodup) ∧
    (∀ e ∈ schedErase s.schedule (fp.name, d) ++ [((tp.name, d), stp)],
      ∃ p ∈ updateStaff (updateStaff s.staff fp2) tp2, p.name = e.1.1) ∧
    (∀ p ∈ updateStaff (updateStaff s.staff fp2) tp2, ∀ x ∈ p.assigned_dates,
      (p.name, x) ∈ keysOf (schedErase s.schedule (fp.name, d) ++ [((tp.name, d), stp)])) ∧
    (∀ e ∈ schedErase s.schedule (fp.name, d) ++ [((tp.name, d), stp)],
      ∀ p ∈ updateStaff (updateStaff s.staff fp2) tp2, p.name = e.1.1 →
        e.1.2 ∈ p.assigned_dates) := by
  rw [double_update_eq hfp2n htp2n hnames]
  have hkeys : ∀ k : String × Int,
      k ∈ keysOf (schedErase s.schedule (fp.name, d) ++ [((tp.name, d), stp)]) ↔
        (k ∈ keysOf s.schedule ∧ k ≠ (fp.name, d)) ∨ k = (tp.name, d) := by
    intro k
    rw [keysOf_append, List.mem_append, mem_keysOf_schedErase,
      show keysOf [((tp.name, d), stp)] = [(tp.name, d)] from rfl, List.mem_singleton]
  refine ⟨?_, ?_, ?_, ?_⟩
  · rw [List.map_map]
    have hmn : s.staff.map ((·.name) ∘ fun q =>
        if q.name = fp.name then fp2 else if q.name = tp.name then tp2 else q) =
        s.staff.map (·.name) :=
      List.map_congr_left fun q _ => swap_image_name hfp2n htp2n q
    rw [hmn]
    exact hnodup
  · intro e he
    rcases List.mem_append.mp he with he1 | he2
    · have heS := (List.mem_filter.mp he1).1
      rcases hsn e heS with ⟨p, hp, hpn⟩
      refine ⟨if p.name = fp.name then fp2 else if p.name = tp.name then tp2 else p,
        List.mem_map_of_mem _ hp, ?_⟩
      rw [swap_image_name hfp2n htp2n p]
      exact hpn
    · rw [List.mem_singleton] at he2
      refine ⟨if tp.name = fp.name then fp2 else if tp.name = tp.name then tp2 else tp,
        List.mem_map_of_mem _ htp, ?_⟩
      rw [swap_image_name hfp2n htp2n tp, he2]
  · intro p' hp' x hx
    rcases List.mem_map.mp hp' with ⟨q, hq, hqe⟩
    rw [hkeys]
    by_cases h1 : q.name = fp.name
    · rw [if_pos h1] at hqe
      rw [← hqe] at hx ⊢
      rw [hfp2a] at hx
      have hxf := List.mem_filter.mp hx
      have hxd : x ≠ d := by simpa using hxf.2
      refine Or.inl ⟨?_, ?_⟩
      · rw [hfp2n]
        exact hc4 fp hfp x hxf.1
      · rw [hfp2n]
        intro hc
        exact hxd (congrArg Prod.snd hc)
    · by_cases h2 : q.name = tp.name
      · rw [if_neg h1, if_pos h2] at hqe
        rw [← hqe] at hx ⊢
        rw [htp2a, List.mem_insert_iff] at hx
        rcases hx with rfl | hx
        · exact Or.inr (by rw [htp2n])
        · refine Or.inl ⟨?_, ?_⟩
          · rw [htp2n]
            exact hc4 tp htp x hx
          · rw [htp2n]
            intro hc
            exact hnames ((congrArg Prod.fst hc).symm)
      · rw [if_neg h1, if_neg h2] at hqe
        rw [← hqe] at hx ⊢
        refine Or.inl ⟨hc4 q hq x hx, ?_⟩
        intro hc
        exact h1 (congrArg Prod.fst hc)
  · intro e he p' hp' hpe
    rcases List.mem_map.mp hp' with ⟨q, hq, hqe⟩
    rcases List.mem_append.mp he with he1 | he2
    · have hef := List.mem_filter.mp he1
      have hene : e.1 ≠ ((fp.name, d) : String × Int) := by simpa using hef.2
      by_cases h1 : q.name = fp.name
      · rw [if_pos h1] at hqe
        rw [← hqe] at hpe
        rw [← hqe, hfp2a]
        have hfn : fp.name = e.1.1 := hfp2n.symm.trans hpe
        have hmm := hc5 e hef.1 fp hfp hfn
        refine List.mem_filter.mpr ⟨hmm, ?_⟩
        have hed : e.1.2 ≠ d := by
          intro hdd
          exact hene (Prod.ext (hfn.symm) hdd)
        simpa using hed
      · by_cases h2 : q.name = tp.name
        · rw [if_neg h1, if_pos h2] at hqe
          rw [← hqe] at hpe
          rw [← hqe, htp2a, List.mem_insert_iff]
          exact Or.inr (hc5 e hef.1 tp htp (htp2n.symm.trans hpe))
        · rw [if_neg h1, if_neg h2] at hqe
          rw [← hqe] at hpe ⊢
          exact hc5 e hef.1 q hq hpe
    · rw [List.mem_singleton] at he2
      by_cases h1 : q.name = fp.name
      · rw [if_pos h1] at hqe
        rw [← hqe] at hpe
        rw [he2] at hpe
        exact absurd (hfp2n.symm.trans hpe) hnames
      · by_cases h2 : q.name = tp.name
        · rw [if_neg h1, if_pos h2] at hqe
          rw [← hqe, htp2a, List.mem_insert_iff, he2]
          exact Or.inl rfl
        · rw [if_neg h1, if_neg h2] at hqe
          rw [← hqe] at hpe
          rw [he2] at hpe
          exact absurd hpe h2



theorem performSwap_WF {s : State} {fp tp : Person} {d : Int} {stp : ShiftType}
    (hwf : WF s) (hfp : fp ∈ s.staff) (htp : tp ∈ s.staff) (hnames : fp.name ≠ tp.name)
    (_hmem : ((fp.name, d), stp) ∈ s.schedule)
    (hswap : canSwapShift s fp tp d stp = true) :
    WF (performSwap s fp tp d stp) := by
  obtain ⟨hnd, hnodup, hsn, hc4, hc5⟩ := hwf
  have hnotin : (tp.name, d) ∉ keysOf s.schedule := swap_notin hc5 htp hswap
  have hsched : (performSwap s fp tp d stp).schedule =
      schedErase s.schedule (fp.name, d) ++ [((tp.name, d), stp)] :=
    swap_sched_form hnotin
  have hparts := @swap_staff_wf s fp tp (removeShiftStats s fp d stp)
    (addShiftStats
      { s with schedule := schedErase s.schedule (fp.name, d),
               staff := updateStaff s.staff (removeShiftStats s fp d stp) }
      tp d stp) d stp
    hnodup hsn hc4 hc5 hfp htp hnames
    (removeShiftStats_name s fp d stp)
    (addShiftStats_name _ tp d stp)
    (removeShiftStats_assigned s fp d stp)
    (addShiftStats_assigned _ tp d stp)
  have hstaffeq : (performSwap s fp tp d stp).staff =
      updateStaff (updateStaff s.staff (removeShiftStats s fp d stp))
        (addShiftStats
          { s with schedule := schedErase s.schedule (fp.name, d),
                   staff := updateStaff s.staff (removeShiftStats s fp d stp) }
          tp d stp) := rfl
  unfold WF
  refine ⟨?_, ?_, ?_, ?_, ?_⟩
  · rw [hsched]
    exact swap_keys_nodup hnd hnotin
  · rw [hstaffeq]
    exact hparts.1
  · rw [hsched, hstaffeq]
    exact hparts.2.1
  · rw [hstaffeq, hsched]
    exact hparts.2.2.1
  · rw [hsched, hstaffeq]
    exact hparts.2.2.2

theorem performSwap_counts {s : State} {fp tp : Person} {d : Int} {stp : ShiftType}
    (hwf : WF s) (htp : tp ∈ s.staff)
    (hmem : ((fp.name, d), stp) ∈ s.schedule) (hnames : fp.name ≠ tp.name)
    (hswap : canSwapShift s fp tp d stp = true) :
    ∀ dd, dayCountOn (performSwap s fp tp d stp).schedule dd = dayCountOn s.schedule dd ∧
      nightCountOn (performSwap s fp tp d stp).schedule dd = nightCountOn s.schedule dd :=
  (perform_swap_frame_aux s fp tp d stp hwf htp hmem hnames hswap).2.2.2

theorem pres_refl {s : State} (hwf : WF s) : Pres s s := by
  unfold Pres
  exact ⟨hwf, rfl, rfl, fun _ => ⟨rfl, rfl⟩⟩

theorem pres_trans {s1 s2 s3 : State} (h12 : Pres s1 s2) (h23 : Pres s2 s3) :
    Pres s1 s3 := by
  obtain ⟨ha1, ha2, ha3, ha4⟩ := h12
  obtain ⟨hb1, hb2, hb3, hb4⟩ := h23
  exact ⟨hb1, hb2.trans ha2, hb3.trans ha3,
    fun dd => ⟨((hb4 dd).1).trans (ha4 dd).1, ((hb4 dd).2).trans (ha4 dd).2⟩⟩

theorem swapStep_pres {s s' : State} (hwf : WF s) (h : SwapStep s s') : Pres s s' := by
  obtain ⟨fp, tp, d, stp, hfp, htp, hnames, hmem, hswap, heq⟩ := h
  subst heq
  exact ⟨performSwap_WF hwf hfp htp hnames hmem hswap, rfl, rfl,
    performSwap_counts hwf htp hmem hnames hswap⟩

theorem step_or_pres {s s' : State} (hwf : WF s) (h : s' = s ∨ SwapStep s s') :
    Pres s s' := by
  rcases h with rfl | h
  · exact pres_refl hwf
  · exact swapStep_pres hwf h

theorem firstSwap_spec {s : State} {extra : SwapCand → Bool} :
    ∀ {combos : List SwapCand} {s' : State}, firstSwap s extra combos = some s' →
      ∃ c ∈ combos, canSwapShift s c.fp c.tp c.d c.st = true ∧
        s' = performSwap s c.fp c.tp c.d c.st
  | [], _, h => by simp [firstSwap] at h
  | c :: rest, s', h => by
      rw [show firstSwap s extra (c :: rest) =
          if canSwapShift s c.fp c.tp c.d c.st && extra c then
            some (performSwap s c.fp c.tp c.d c.st)
          else firstSwap s extra rest from rfl] at h
      by_cases hc : (canSwapShift s c.fp c.tp c.d c.st && extra c) = true
      · rw [if_pos hc] at h
        simp only [Bool.and_eq_true] at hc
        exact ⟨c, List.mem_cons_self c rest, hc.1, (Option.some.inj h).symm⟩
      · rw [if_neg hc] at h
        obtain ⟨c2, hc2, hrest⟩ := firstSwap_spec h
        exact ⟨c2, List.mem_cons_of_mem c hc2, hrest⟩

theorem mem_insertByDate {x y : Int × ShiftType} :
    ∀ {l : List (Int × ShiftType)}, x ∈ insertByDate y l → x = y ∨ x ∈ l
  | [], h => by
      rw [show insertByDate y [] = [y] from rfl, List.mem_singleton] at h
      exact Or.inl h
  | z :: zs, h => by
      rw [show insertByDate y (z :: zs) =
          if y.1 ≤ z.1 then y :: z :: zs else z :: insertByDate y zs from rfl] at h
      by_cases hc : y.1 ≤ z.1
      · rw [if_pos hc] at h
        rcases List.mem_cons.mp h with h1 | h2
        · exact Or.inl h1
        · exact Or.inr h2
      · rw [if_neg hc] at h
        rcases List.mem_cons.mp h with h1 | h2
        · exact Or.inr (h1 ▸ List.mem_cons_self z zs)
        · rcases mem_insertByDate h2 with h3 | h4
          · exact Or.inl h3
          · exact Or.inr (List.mem_cons_of_mem z h4)

theorem mem_sortByDate {x : Int × ShiftType} :
    ∀ {l : List (Int × ShiftType)}, x ∈ sortByDate l → x ∈ l
  | [], h => by simp [sortByDate] at h
  | z :: zs, h => by
      rw [show sortByDate (z :: zs) = insertByDate z (sortByDate zs) from rfl] at h
      rcases mem_insertByDate h with h1 | h2
      · exact h1 ▸ List.mem_cons_self z zs
      · exact List.mem_cons_of_mem z (mem_sortByDate h2)



theorem tryBalanceWeekend_step {s : State} {b : Bool} {s' : State}
    (hnodup : (s.staff.map (·.name)).Nodup)
    (h : tryBalanceWeekendShifts s = (b, s')) : s' = s ∨ SwapStep s s' := by
  unfold tryBalanceWeekendShifts at h
  dsimp only at h
  split at h
  · exact Or.inl (congrArg Prod.snd h).symm
  · split at h
    · exact Or.inl (congrArg Prod.snd h).symm
    · rename_i hguard
      split at h
      · rename_i s2 heq
        have hs' : s' = s2 := (congrArg Prod.snd h).symm
        obtain ⟨c, hcmem, hcswap, hceq⟩ := firstSwap_spec heq
        rcases List.mem_flatten.mp hcmem with ⟨inner, hinner, hcin⟩
        rcases List.mem_map.mp hinner with ⟨hp, hhp, hinnereq⟩
        rw [← hinnereq] at hcin
        rcases List.mem_flatten.mp hcin with ⟨inner2, hinner2, hcin2⟩
        rcases List.mem_map.mp hinner2 with ⟨e, he, hinner2eq⟩
        rw [← hinner2eq] at hcin2
        rcases List.mem_map.mp hcin2 with ⟨lp, hlp, hceq2⟩
        have hhpf := List.mem_filter.mp hhp
        have hlpf := List.mem_filter.mp hlp
        have hef := List.mem_filter.mp he
        have he11 : e.1.1 = hp.name := by
          have h2 := hef.2
          simp only [Bool.and_eq_true] at h2
          simpa using h2.1
        have hE : ((hp.name, e.1.2), e.2) ∈ s.schedule := by
          rw [← he11]
          exact hef.1
        have hw1 : hp.weekend_shifts = maxInt (s.staff.map (·.weekend_shifts)) := by
          simpa using hhpf.2
        have hw2 : lp.weekend_shifts = minInt (s.staff.map (·.weekend_shifts)) := by
          simpa using hlpf.2
        have hne : hp.name ≠ lp.name := by
          intro hn
          have heq3 : hp = lp := eq_of_name_eq hnodup hhpf.1 hlpf.1 hn
          rw [heq3, hw2] at hw1
          omega
        rw [← hceq2] at hcswap hceq
        refine Or.inr ?_
        unfold SwapStep
        refine ⟨hp, lp, e.1.2, e.2, hhpf.1, hlpf.1, hne, hE, hcswap, ?_⟩
        rw [hs', hceq]
      · exact Or.inl (congrArg Prod.snd h).symm

theorem tryBalanceNight_step {s : State} {b : Bool} {s' : State}
    (hnodup : (s.staff.map (·.name)).Nodup)
    (h : tryBalanceNightShifts s = (b, s')) : s' = s ∨ SwapStep s s' := by
  unfold tryBalanceNightShifts at h
  dsimp only at h
  split at h
  · exact Or.inl (congrArg Prod.snd h).symm
  · split at h
    · exact Or.inl (congrArg Prod.snd h).symm
    · rename_i hguard
      split at h
      · rename_i s2 heq
        have hs' : s' = s2 := (congrArg Prod.snd h).symm
        obtain ⟨c, hcmem, hcswap, hceq⟩ := firstSwap_spec heq
        rcases List.mem_flatten.mp hcmem with ⟨inner, hinner, hcin⟩
        rcases List.mem_map.mp hinner with ⟨hp, hhp, hinnereq⟩
        rw [← hinnereq] at hcin
        rcases List.mem_flatten.mp hcin with ⟨inner2, hinner2, hcin2⟩
        rcases List.mem_map.mp hinner2 with ⟨e, he, hinner2eq⟩
        rw [← hinner2eq] at hcin2
        rcases List.mem_map.mp hcin2 with ⟨lp, hlp, hceq2⟩
        have hhpf := List.mem_filter.mp hhp
        have hhps := List.mem_filter.mp hhpf.1
        have hlpf := List.mem_filter.mp hlp
        have hlps := List.mem_filter.mp hlpf.1
        have hef := List.mem_filter.mp (List.mem_filter.mp he).1
        have he11 : e.1.1 = hp.name := by
          have h2 := hef.2
          simp only [Bool.and_eq_true] at h2
          simpa using h2.1
        have hE : ((hp.name, e.1.2), e.2) ∈ s.schedule := by
          rw [← he11]
          exact hef.1
        have hw1 : normNight hp s.dates.length =
            maxInt ((s.staff.filter (·.can_do_night)).map (normNight · s.dates.length)) := by
          simpa using hhpf.2
        have hw2 : normNight lp s.dates.length =
            minInt ((s.staff.filter (·.can_do_night)).map (normNight · s.dates.length)) := by
          simpa using hlpf.2
        have hne : hp.name ≠ lp.name := by
          intro hn
          have heq3 : hp = lp := eq_of_name_eq hnodup hhps.1 hlps.1 hn
          rw [heq3, hw2] at hw1
          omega
        rw [← hceq2] at hcswap hceq
        refine Or.inr ?_
        unfold SwapStep
        refine ⟨hp, lp, e.1.2, e.2, hhps.1, hlps.1, hne, hE, hcswap, ?_⟩
        rw [hs', hceq]
      · exact Or.inl (congrArg Prod.snd h).symm



theorem tryBalanceTotal_step {s : State} {b : Bool} {s' : State}
    (hnodup : (s.staff.map (·.name)).Nodup)
    (h : tryBalanceTotalShifts s = (b, s')) : s' = s ∨ SwapStep s s' := by
  unfold tryBalanceTotalShifts at h
  dsimp only at h
  split at h
  · exact Or.inl (congrArg Prod.snd h).symm
  · split at h
    · exact Or.inl (congrArg Prod.snd h).symm
    · rename_i hguard
      split at h
      · rename_i s2 heq
        have hs' : s' = s2 := (congrArg Prod.snd h).symm
        obtain ⟨c, hcmem, hcswap, hceq⟩ := firstSwap_spec heq
        rcases List.mem_flatten.mp hcmem with ⟨inner, hinner, hcin⟩
        rcases List.mem_map.mp hinner with ⟨hp, hhp, hinnereq⟩
        rw [← hinnereq] at hcin
        rcases List.mem_flatten.mp hcin with ⟨inner2, hinner2, hcin2⟩
        rcases List.mem_map.mp hinner2 with ⟨sh, hsh, hinner2eq⟩
        rw [← hinner2eq] at hcin2
        rcases List.mem_map.mp hcin2 with ⟨lp, hlp, hceq2⟩
        rcases List.mem_map.mp (mem_sortByDate hsh) with ⟨e, he, hesh⟩
        have hhpf := List.mem_filter.mp hhp
        have hlpf := List.mem_filter.mp hlp
        have hef := List.mem_filter.mp he
        have he11 : e.1.1 = hp.name := by simpa using hef.2
        have hE : ((hp.name, sh.1), sh.2) ∈ s.schedule := by
          rw [← hesh, ← he11]
          exact hef.1
        have hw1 : normTotal hp s.dates.length =
            maxInt (s.staff.map (normTotal · s.dates.length)) := by
          simpa using hhpf.2
        have hw2 : normTotal lp s.dates.length =
            minInt (s.staff.map (normTotal · s.dates.length)) := by
          simpa using hlpf.2
        have hne : hp.name ≠ lp.name := by
          intro hn
          have heq3 : hp = lp := eq_of_name_eq hnodup hhpf.1 hlpf.1 hn
          rw [heq3, hw2] at hw1
          omega
        rw [← hceq2] at hcswap hceq
        refine Or.inr ?_
        unfold SwapStep
        refine ⟨hp, lp, sh.1, sh.2, hhpf.1, hlpf.1, hne, hE, hcswap, ?_⟩
        rw [hs', hceq]
      · exact Or.inl (congrArg Prod.snd h).symm

theorem tryBalanceBurden_step {s : State} {b : Bool} {s' : State}
    (h : tryBalanceHighTotalBurden s = (b, s')) : s' = s ∨ SwapStep s s' := by
  unfold tryBalanceHighTotalBurden at h
  dsimp only at h
  split at h
  · exact Or.inl (congrArg Prod.snd h).symm
  · split at h
    · rename_i s2 heq
      have hs' : s' = s2 := (congrArg Prod.snd h).symm
      obtain ⟨c, hcmem, hcswap, hceq⟩ := firstSwap_spec heq
      rcases List.mem_flatten.mp hcmem with ⟨inner, hinner, hcin⟩
      rcases List.mem_map.mp hinner with ⟨hp, hhp, hinnereq⟩
      rw [← hinnereq] at hcin
      have hhpf := List.mem_filter.mp hhp
      rcases List.mem_append.mp hcin with hcA | hcB
      · split at hcA
        · rcases List.mem_flatten.mp hcA with ⟨inner2, hinner2, hcin2⟩
          rcases List.mem_map.mp hinner2 with ⟨e, he, hinner2eq⟩
          rw [← hinner2eq] at hcin2
          rcases List.mem_map.mp hcin2 with ⟨q, hq, hceq2⟩
          have hqf := List.mem_filter.mp hq
          have hqne : (q.name != hp.name) = true := by
            have h2 := hqf.2
            simp only [Bool.and_eq_true] at h2
            exact h2.1.1.1
          have hne : hp.name ≠ q.name := fun hn => by simp [hn] at hqne
          have hef := List.mem_filter.mp he
          have he11 : e.1.1 = hp.name := by
            have h2 := hef.2
            simp only [Bool.and_eq_true] at h2
            simpa using h2.1
          have hE : ((hp.name, e.1.2), e.2) ∈ s.schedule := by
            rw [← he11]
            exact hef.1
          rw [← hceq2] at hcswap hceq
          refine Or.inr ?_
          unfold SwapStep
          refine ⟨hp, q, e.1.2, e.2, hhpf.1, hqf.1, hne, hE, hcswap, ?_⟩
          rw [hs', hceq]
        · exact absurd hcA (List.not_mem_nil c)
      · split at hcB
        · rcases List.mem_flatten.mp hcB with ⟨inner2, hinner2, hcin2⟩
          rcases List.mem_map.mp hinner2 with ⟨e, he, hinner2eq⟩
          rw [← hinner2eq] at hcin2
          rcases List.mem_map.mp hcin2 with ⟨q, hq, hceq2⟩
          have hqf := List.mem_filter.mp hq
          have hqne : (q.name != hp.name) = true := by
            have h2 := hqf.2
            simp only [Bool.and_eq_true] at h2
            exact h2.1.1.1
          have hne : hp.name ≠ q.name := fun hn => by simp [hn] at hqne
          have hef := List.mem_filter.mp (List.mem_filter.mp he).1
          have he11 : e.1.1 = hp.name := by
            have h2 := hef.2
            simp only [Bool.and_eq_true] at h2
            simpa using h2.1
          have hE : ((hp.name, e.1.2), e.2) ∈ s.schedule := by
            rw [← he11]
            exact hef.1
          rw [← hceq2] at hcswap hceq
          refine Or.inr ?_
          unfold SwapStep
          refine ⟨hp, q, e.1.2, e.2, hhpf.1, hqf.1, hne, hE, hcswap, ?_⟩
          rw [hs', hceq]
        · exact absurd hcB (List.not_mem_nil c)
    · exact Or.inl (congrArg Prod.snd h).symm



theorem pres_wf {s s' : State} (h : Pres s s') : WF s' := by
  obtain ⟨h1, -, -, -⟩ := h
  exact h1

theorem wf_names {s : State} (h : WF s) : (s.staff.map (·.name)).Nodup := by
  obtain ⟨-, h2, -, -, -⟩ := h
  exact h2

theorem optimizeStep_pres {s : State} (hwf : WF s) : Pres s (optimizeStep s).2 := by
  have p1 := step_or_pres hwf (tryBalanceWeekend_step (wf_names hwf) rfl)
  have p2 := step_or_pres (pres_wf p1) (tryBalanceNight_step (wf_names (pres_wf p1)) rfl)
  have p3 := step_or_pres (pres_wf p2) (tryBalanceBurden_step rfl)
  have p4 := step_or_pres (pres_wf p3) (tryBalanceTotal_step (wf_names (pres_wf p3)) rfl)
  exact pres_trans (pres_trans (pres_trans p1 p2) p3) p4

theorem optLoop_pres : ∀ (n : Nat) {s : State}, WF s → Pres s (optLoop n s)
  | 0, _, hwf => pres_refl hwf
  | n + 1, s, hwf => by
      rw [show optLoop (n + 1) s =
        (if (optimizeStep s).1 then optLoop n (optimizeStep s).2
         else (optimizeStep s).2) from rfl]
      by_cases hc : (optimizeStep s).1 = true
      · rw [if_pos hc]
        exact pres_trans (optimizeStep_pres hwf)
          (optLoop_pres n (pres_wf (optimizeStep_pres hwf)))
      · rw [if_neg hc]
        exact optimizeStep_pres hwf

theorem optimize_pres {s : State} (hwf : WF s) : Pres s (optimizeSchedule s) :=
  optLoop_pres 50 hwf

theorem genStep_none {base : State} {acc : Option (Sched × List Person × Q)}
    {a : AttemptInput} (h : genStep base acc a = none) :
    acc = none ∧ validateCoverage (attState base a) = false := by
  unfold genStep at h
  dsimp only at h
  by_cases hv : validateCoverage (attState base a) = true
  · rw [if_pos hv] at h
    cases acc with
    | none => simp at h
    | some b =>
        dsimp only at h
        by_cases hq : Q.blt (calcFairnessScore (optimizeSchedule (attState base a))) b.2.2 = true
        · rw [if_pos hq] at h
          simp at h
        · rw [if_neg hq] at h
          simp at h
  · rw [if_neg hv] at h
    refine ⟨h, ?_⟩
    revert hv
    cases validateCoverage (attState base a) <;> simp

theorem genFold_none_iff {base : State} :
    ∀ (l : List AttemptInput) (acc : Option (Sched × List Person × Q)),
      l.foldl (genStep base) acc = none ↔
        acc = none ∧ ∀ a ∈ l, validateCoverage (attState base a) = false
  | [], acc => by simp
  | x :: xs, acc => by
      rw [List.foldl_cons, genFold_none_iff xs (genStep base acc x)]
      constructor
      · rintro ⟨h1, h2⟩
        have h3 := genStep_none h1
        refine ⟨h3.1, ?_⟩
        intro a ha
        rcases List.mem_cons.mp ha with rfl | ha2
        · exact h3.2
        · exact h2 a ha2
      · rintro ⟨h1, h2⟩
        have hx : validateCoverage (attState base x) = false := h2 x (List.mem_cons_self x xs)
        have hstep : genStep base acc x = none := by
          rw [h1]
          unfold genStep
          dsimp only
          rw [if_neg (by rw [hx]; exact Bool.false_ne_true)]
        exact ⟨hstep, fun a ha => h2 a (List.mem_cons_of_mem x ha)⟩

theorem genFold_some_spec {base : State} :
    ∀ (l : List AttemptInput) (acc : Option (Sched × List Person × Q))
      (r : Sched × List Person × Q), l.foldl (genStep base) acc = some r →
      acc = some r ∨ ∃ a ∈ l, validateCoverage (attState base a) = true ∧
        r.1 = (optimizeSchedule (attState base a)).schedule ∧
        r.2.1 = (optimizeSchedule (attState base a)).staff
  | [], _, _, h => Or.inl h
  | x :: xs, acc, r, h => by
      rcases genFold_some_spec xs (genStep base acc x) r h with h1 | ⟨a, ha, hv, hs1, hs2⟩
      · unfold genStep at h1
        dsimp only at h1
        by_cases hv : validateCoverage (attState base x) = true
        · rw [if_pos hv] at h1
          cases acc with
          | none =>
              have hr := (Option.some.inj h1).symm
              exact Or.inr ⟨x, List.mem_cons_self x xs, hv, by rw [hr], by rw [hr]⟩
          | some b =>
              dsimp only at h1
              by_cases hq : Q.blt (calcFairnessScore (optimizeSchedule (attState base x)))
                  b.2.2 = true
              · rw [if_pos hq] at h1
                have hr := (Option.some.inj h1).symm
                exact Or.inr ⟨x, List.mem_cons_self x xs, hv, by rw [hr], by rw [hr]⟩
              · rw [if_neg hq] at h1
                exact Or.inl h1
        · rw [if_neg hv] at h1
          exact Or.inl h1
      · exact Or.inr ⟨a, List.mem_cons_of_mem x ha, hv, hs1, hs2⟩

theorem genFold_some_of_valid {base : State} {l : List AttemptInput} {a : AttemptInput}
    (ha : a ∈ l) (hv : validateCoverage (attState base a) = true) :
    ∃ r, l.foldl (genStep base) none = some r := by
  cases h : l.foldl (genStep base) none with
  | some r => exact ⟨r, rfl⟩
  | none =>
      have h2 := ((genFold_none_iff l none).mp h).2 a ha
      rw [hv] at h2
      exact absurd h2 (by simp)



/-- C2 counterexample: on a month whose single date is a holiday, the empty
attempt passes `_validate_coverage` (vacuously), yet `generate_schedule`
returns False — the Python truthiness test `if best_schedule:` discards a
validated empty schedule, so "True iff at least one attempt validates"
fails in the left-to-right direction. -/
theorem generate_truthiness_counterexample :
    validateCoverage (attState exGenHolBase exGenHolAttempt) = true ∧
    generateSchedule exGenHolBase [exGenHolAttempt] = false := by
  decide

/-- C2 (amended): `generate_schedule` returns True only if some attempt
passes the coverage validation, and returns False when every attempt fails
it (never retaining a partially covered schedule); whenever it returns True
the retained best snapshot still passes the coverage validation — the
post-generation optimizer preserves per-date Day/Night occupancy — so every
non-holiday date keeps at least one Day and one Night occupant; and
conversely, if some attempt validates and the month has at least one
non-holiday date, the function does return True (the all-holiday month of
the counterexample is the only gap between "True" and "some attempt
validates"). Attempts are assumed well-formed with a nonempty roster, as
the generator guarantees (on an empty roster the Python optimizer would
raise `ValueError`). -/
theorem generate_schedule_validation (base : State) (attempts : List AttemptInput)
    (hwf : ∀ a ∈ attempts, WF (attState base a))
    (hstaffne : ∀ a ∈ attempts, a.2 ≠ []) :
    (generateSchedule base attempts = true →
      ∃ a ∈ attempts, validateCoverage (attState base a) = true) ∧
    ((∀ a ∈ attempts, validateCoverage (attState base a) = false) →
      generateSchedule base attempts = false) ∧
    (generateSchedule base attempts = true →
      ∃ st, retainedState base attempts = some st ∧ validateCoverage st = true) ∧
    ((∃ a ∈ attempts, validateCoverage (attState base a) = true) →
      (∃ dd ∈ base.dates, isHoliday base dd = false) →
      generateSchedule base attempts = true) := by
  refine ⟨?_, ?_, ?_, ?_⟩
  · intro hg
    unfold generateSchedule at hg
    cases hc : genLoop base attempts with
    | none =>
        rw [hc] at hg
        simp at hg
    | some r =>
        rcases genFold_some_spec attempts none r hc with h1 | ⟨a, ha, hv, -, -⟩
        · exact Option.noConfusion h1
        · exact ⟨a, ha, hv⟩
  · intro hall
    have hnone : genLoop base attempts = none :=
      (genFold_none_iff attempts none).mpr ⟨rfl, hall⟩
    unfold generateSchedule
    rw [hnone]
  · intro hg
    obtain ⟨r, hr⟩ : ∃ r, genLoop base attempts = some r := by
      unfold generateSchedule at hg
      cases hc : genLoop base attempts with
      | none =>
          rw [hc] at hg
          simp at hg
      | some r => exact ⟨r, rfl⟩
    rcases genFold_some_spec attempts none r hr with h1 | ⟨a, ha, hv, hs1, hs2⟩
    · exact Option.noConfusion h1
    · obtain ⟨hpwf, hpd, hph, hpc⟩ := optimize_pres (hwf a ha)
      refine ⟨{ base with schedule := r.1, staff := r.2.1 }, ?_, ?_⟩
      · unfold retainedState
        rw [hr]
        rfl
      · have h1 : validateCoverage { base with schedule := r.1, staff := r.2.1 } =
            validateCoverage (optimizeSchedule (attState base a)) := by
          apply validate_eq_of
          · exact hpd.symm
          · exact hph.symm
          · intro dd
            constructor
            · rw [hs1]
            · rw [hs1]
        have h2 : validateCoverage (optimizeSchedule (attState base a)) =
            validateCoverage (attState base a) := validate_eq_of hpd hph hpc
        rw [h1, h2]
        exact hv
  · rintro ⟨a, ha, hv⟩ ⟨dd, hdd, hhol⟩
    obtain ⟨r, hr⟩ := genFold_some_of_valid ha hv
    have hrg : genLoop base attempts = some r := hr
    unfold generateSchedule
    rw [hrg]
    show (!r.1.isEmpty) = true
    rcases genFold_some_spec attempts none r hrg with h1 | ⟨a2, ha2, hv2, hs1, -⟩
    · exact Option.noConfusion h1
    · obtain ⟨-, -, -, hpc⟩ := optimize_pres (hwf a2 ha2)
      have hcov := (validateCoverage_iff_aux (attState base a2)).mp hv2 dd hdd hhol
      have hday : 1 ≤ dayCountOn (optimizeSchedule (attState base a2)).schedule dd := by
        rw [(hpc dd).1]
        exact hcov.1
      rw [hs1]
      cases hsch : (optimizeSchedule (attState base a2)).schedule with
      | nil =>
          rw [hsch] at hday
          rw [show dayCountOn ([] : Sched) dd = 0 from rfl] at hday
          exact absurd hday (by omega)
      | cons x xs => rfl

/-- C2 witness: on the one-day no-holiday month with the covering attempt,
the amended theorem yields True and a validated retained snapshot. -/
theorem generate_schedule_validation_witness :
    generateSchedule exGenBase [exGenAttempt] = true ∧
    ∃ st, retainedState exGenBase [exGenAttempt] = some st ∧
      validateCoverage st = true := by
  have h := generate_schedule_validation exGenBase [exGenAttempt] (by decide) (by decide)
  have ht : generateSchedule exGenBase [exGenAttempt] = true :=
    h.2.2.2 ⟨exGenAttempt, List.mem_cons_self exGenAttempt [], by decide⟩
      ⟨1, by decide, by decide⟩
  exact ⟨ht, h.2.2.1 ht⟩

end HospitalSchedule
